import Mathlib

/-!
Verification development for the Black-Grimoire game engine core
(entity-component storage and rigid-body physics).

Shallow embedding conventions:
* `f32` values are embedded as exact rationals (`ℚ`); all the verified
  claims are either structural (control flow, container shape) or hold
  at inputs on which the source's `f32` arithmetic is exact.
* Machine integers (`u32`, `u8`, `usize`) are embedded as `ℕ` with
  explicit `% 2^w` where the source masks or wraps.
* `FnvHashMap<Entity, usize>` is embedded as an association list; the
  source never iterates over a map (only over the dense `Vec`), so the
  association-list order is unobservable.
* Indexing a `Vec` out of bounds and `Option::unwrap` on `None` panic
  in Rust; fallible operations are therefore embedded as
  `Option`-returning functions, `none` modelling a panic/abort.
-/

namespace BlackGrimoire

/-! ### gamemath vectors (external dependency, used componentwise) -/

/-- `Vec3<f32>`, embedded over `ℚ`. -/
structure Vec3 where
  x : ℚ
  y : ℚ
  z : ℚ
deriving DecidableEq, Repr

instance : Add Vec3 := ⟨fun a b => ⟨a.x + b.x, a.y + b.y, a.z + b.z⟩⟩
instance : Sub Vec3 := ⟨fun a b => ⟨a.x - b.x, a.y - b.y, a.z - b.z⟩⟩
instance : Neg Vec3 := ⟨fun a => ⟨-a.x, -a.y, -a.z⟩⟩

/-- `Vec3<f32> * f32` (componentwise scaling, as in gamemath). -/
instance : HMul Vec3 ℚ Vec3 := ⟨fun v s => ⟨v.x * s, v.y * s, v.z * s⟩⟩

/-- Componentwise unfolding of the vector operations (for concrete
evaluation). -/
theorem Vec3.add_def (a b : Vec3) :
    a + b = ⟨a.x + b.x, a.y + b.y, a.z + b.z⟩ := rfl

theorem Vec3.sub_def (a b : Vec3) :
    a - b = ⟨a.x - b.x, a.y - b.y, a.z - b.z⟩ := rfl

theorem Vec3.neg_def (a : Vec3) : -a = ⟨-a.x, -a.y, -a.z⟩ := rfl

theorem Vec3.smul_def (v : Vec3) (s : ℚ) :
    v * s = ⟨v.x * s, v.y * s, v.z * s⟩ := rfl

/-- `Vec3::dot`. -/
def Vec3.dot (a b : Vec3) : ℚ :=
  a.x * b.x + a.y * b.y + a.z * b.z

/-- `Vec3::length_squared`. -/
def Vec3.length_squared (v : Vec3) : ℚ :=
  v.dot v

/-- `Vec3::new(0.0, 0.0, 0.0)`. -/
def Vec3.zero : Vec3 := ⟨0, 0, 0⟩

/-- `f32::MIN`, the minimum finite `f32` value `-(2^128 - 2^104)`,
as an exact rational. -/
def f32MIN : ℚ := -((2 ^ 24 - 1) * 2 ^ 104)

/-! ### Entity (src/src/ecs/mod.rs) -/

/-- `ENTITY_INDEX_BITS = 24`. -/
def ENTITY_INDEX_BITS : ℕ := 24

/-- `ENTITY_GENERATION_BITS = 8`. -/
def ENTITY_GENERATION_BITS : ℕ := 8

/-- `MINIMUM_FREE_INDICES = 1024`. -/
def MINIMUM_FREE_INDICES : ℕ := 1024

/-- `struct Entity(u32)`: an opaque packed handle `index:24 | generation:8`. -/
structure Entity where
  val : ℕ
deriving DecidableEq, Repr

/-- `Entity::null()`: the reserved zero handle. -/
def Entity.null : Entity := ⟨0⟩

/-- `Entity::new(index, generation)`: packs
`(index & INDEX_MASK) | ((generation & GENERATION_MASK) << 24)`; on the
disjoint bit ranges the `|` is addition. -/
def Entity.new (index generation : ℕ) : Entity :=
  ⟨index % 2 ^ 24 + generation % 2 ^ 8 * 2 ^ 24⟩

/-- `Entity::index()`: the low 24 bits. -/
def Entity.index (e : Entity) : ℕ := e.val % 2 ^ 24

/-- `Entity::generation()`: bits 24..31. -/
def Entity.generation (e : Entity) : ℕ := e.val / 2 ^ 24 % 2 ^ 8

/-! ### EntityManager (src/src/ecs/mod.rs) -/

/-- `EntityManager`: parallel `generation`/`active` tables plus a FIFO
free-index queue (`VecDeque`: pop at the head, push at the tail). -/
structure EntityManager where
  generation : List ℕ
  active : List Bool
  free_indices : List ℕ
deriving DecidableEq, Repr

/-- `EntityManager::create_new_entity`. If more than
`MINIMUM_FREE_INDICES` indices are pending free, the oldest freed index
is recycled (its stored generation kept); otherwise a fresh slot with
generation 0 is appended.  Out-of-range table indexing (a Rust panic)
is modelled by `none`. -/
def EntityManager.create_new_entity (m : EntityManager) :
    Option (EntityManager × Entity) :=
  if m.free_indices.length > MINIMUM_FREE_INDICES then
    match m.free_indices with
    | [] => none
    | idx :: rest =>
      if idx < m.active.length then
        let m1 : EntityManager :=
          { m with active := m.active.set idx true, free_indices := rest }
        match m1.generation.get? idx with
        | some g => some (m1, Entity.new idx g)
        | none => none
      else none
  else
    let gens := m.generation ++ [0]
    let m1 : EntityManager :=
      { m with generation := gens, active := m.active ++ [true] }
    let idx := gens.length - 1
    match gens.get? idx with
    | some g => some (m1, Entity.new idx g)
    | none => none

/-- `EntityManager::entity_is_alive`: compares the stored generation at
the handle's index with the handle's generation field.  The source
indexes `generation[idx]` unchecked, so an out-of-range index (panic)
is modelled by `none`. -/
def EntityManager.entity_is_alive (m : EntityManager) (e : Entity) :
    Option Bool :=
  (m.generation.get? e.index).map (fun g => decide (g = e.generation))

/-- `EntityManager::destroy_entity`: increments the generation at the
handle's index (u8, wrapping mod 256 in release builds, as the spec
documents) and enqueues the index on the free list. -/
def EntityManager.destroy_entity (m : EntityManager) (e : Entity) :
    Option EntityManager :=
  match m.generation.get? e.index with
  | some g =>
    some { m with
            generation := m.generation.set e.index ((g + 1) % 2 ^ 8),
            free_indices := m.free_indices ++ [e.index] }
  | none => none

/-- `EntityManager::new()`: starts empty and immediately allocates the
null entity (index 0, generation 0); the resulting state is spelled out
(the push branch of `create_new_entity` on the empty manager). -/
def EntityManager.new : EntityManager :=
  ⟨[0], [true], []⟩

/-- A trace operation on the `EntityManager`: one
`create_new_entity` or `destroy_entity` call. -/
inductive EOp where
  | create
  | destroy (e : Entity)
deriving DecidableEq, Repr

/-- Runs a sequence of `EntityManager` calls; `none` models a panic in
any step. -/
def runEMOps : List EOp → EntityManager → Option EntityManager
  | [], m => some m
  | EOp.create :: rest, m =>
    match m.create_new_entity with
    | some (m1, _) => runEMOps rest m1
    | none => none
  | EOp.destroy e :: rest, m =>
    match m.destroy_entity e with
    | some m1 => runEMOps rest m1
    | none => none

/-- Number of `destroy_entity` calls in a trace whose handle's index
field equals `idx` (each one increments the generation stored at
`idx`). -/
def destroyCountAt (idx : ℕ) : List EOp → ℕ
  | [] => 0
  | EOp.create :: rest => destroyCountAt idx rest
  | EOp.destroy e :: rest =>
    (if e.index = idx then 1 else 0) + destroyCountAt idx rest

/-! ### The sparse entity-to-index map (FnvHashMap<Entity, usize>) -/

/-- The sparse map of every component store, as an association list. -/
abbrev EMap := List (Entity × ℕ)

/-- `HashMap::get` (first matching binding). -/
def mget : EMap → Entity → Option ℕ
  | [], _ => none
  | (k, v) :: rest, e => if k = e then some v else mget rest e

/-- `HashMap::contains_key`. -/
def mcontains (m : EMap) (e : Entity) : Bool :=
  (mget m e).isSome

/-- Overwriting the value stored under key `e` (all bindings of that
key, leaving other keys alone). -/
def mreplace : EMap → Entity → ℕ → EMap
  | [], _, _ => []
  | (k, w) :: rest, e, v =>
    if k = e then (e, v) :: mreplace rest e v else (k, w) :: mreplace rest e v

/-- `HashMap::insert`: replaces the value when the key is present,
otherwise adds a binding. -/
def minsert (m : EMap) (e : Entity) (v : ℕ) : EMap :=
  if (mget m e).isSome then
    mreplace m e v
  else
    m ++ [(e, v)]

/-- `HashMap::remove`. -/
def mremove (m : EMap) (e : Entity) : EMap :=
  m.filter (fun p => p.1 ≠ e)

/-- `*map.get_mut(k).unwrap() = v`: overwrites the value of an existing
binding; `none` models the `unwrap` panic when the key is absent. -/
def msetExisting (m : EMap) (e : Entity) (v : ℕ) : Option EMap :=
  if (mget m e).isSome then
    some (mreplace m e v)
  else
    none

/-- `Vec::swap_remove(i)`: overwrites slot `i` with the last element and
pops the last slot; panics (`none`) when `i` is out of range. -/
def swapRemove (l : List α) (i : ℕ) : Option (List α) :=
  if h : i < l.length then
    some ((l.set i (l.getLast (List.ne_nil_of_length_pos
      (Nat.lt_of_le_of_lt (Nat.zero_le i) h)))).dropLast)
  else
    none

/-! ### HealthSystem (src/src/ecs/components/health.rs) -/

/-- `HealthData`: owner plus `(current, max)` hitpoints. -/
structure HealthData where
  owner : Entity
  hitpoints : ℚ × ℚ
deriving DecidableEq, Repr

/-- `HealthSystem`: sparse map plus dense data array. -/
structure HealthSystem where
  map : EMap
  data : List HealthData
deriving DecidableEq, Repr

/-- `HealthBuilder`. -/
structure HealthBuilder where
  hitpoints : Option (ℚ × ℚ)
deriving DecidableEq, Repr

/-- `HealthBuilder::new()`. -/
def HealthBuilder.new : HealthBuilder := ⟨none⟩

/-- `HealthBuilder::with_hitpoints`. -/
def HealthBuilder.with_hitpoints (b : HealthBuilder) (hp : ℚ × ℚ) :
    HealthBuilder :=
  { b with hitpoints := some hp }

/-- `HealthBuilder::build`: defaults to `(1.0, 1.0)`. -/
def HealthBuilder.build (b : HealthBuilder) (owner : Entity) : HealthData :=
  ⟨owner, b.hitpoints.getD (1, 1)⟩

/-- `HealthSystem::new()`. -/
def HealthSystem.new : HealthSystem := ⟨[], []⟩

/-- `HealthSystem::entity_has_health`. -/
def HealthSystem.entity_has_health (s : HealthSystem) (e : Entity) : Bool :=
  mcontains s.map e

/-- `HealthSystem::add_health_to_entity`: silent no-op on the null
entity or when the entity already has health; otherwise pushes the
built record and maps the entity to the new last index. -/
def HealthSystem.add_health_to_entity (s : HealthSystem) (e : Entity)
    (initial_health : HealthBuilder) : HealthSystem :=
  if e ≠ Entity.null then
    if s.entity_has_health e then s
    else
      { map := minsert s.map e s.data.length,
        data := s.data ++ [initial_health.build e] }
  else s

/-- `HealthSystem::remove_health_from_entity`: swap-removes the record,
drops the map entry, and when an element was moved into the vacated
slot repairs that element's map entry (`get_mut(..).unwrap()`, a panic
modelled by `none`). -/
def HealthSystem.remove_health_from_entity (s : HealthSystem) (e : Entity) :
    Option HealthSystem :=
  if e ≠ Entity.null then
    match mget s.map e with
    | some index =>
      match swapRemove s.data index with
      | some data1 =>
        let m1 := mremove s.map e
        if data1.length ≠ 0 ∧ index ≠ data1.length then
          match data1.get? index with
          | some moved =>
            match msetExisting m1 moved.owner index with
            | some m2 => some ⟨m2, data1⟩
            | none => none
          | none => none
        else some ⟨m1, data1⟩
      | none => none
    | none => some s
  else some s

/-- `HealthSystem::heal`: adds to current hitpoints; no-op on the null
or unmapped entity; `none` models the dense-array indexing panic. -/
def HealthSystem.heal (s : HealthSystem) (e : Entity) (amount : ℚ) :
    Option HealthSystem :=
  if e ≠ Entity.null then
    match mget s.map e with
    | some index =>
      match s.data.get? index with
      | some r =>
        let r1 := { r with hitpoints := (r.hitpoints.1 + amount, r.hitpoints.2) }
        some { s with data := s.data.set index r1 }
      | none => none
    | none => some s
  else some s

/-- `HealthSystem::harm`: subtracts from current hitpoints; no-op on
the null or unmapped entity. -/
def HealthSystem.harm (s : HealthSystem) (e : Entity) (amount : ℚ) :
    Option HealthSystem :=
  if e ≠ Entity.null then
    match mget s.map e with
    | some index =>
      match s.data.get? index with
      | some r =>
        let r1 := { r with hitpoints := (r.hitpoints.1 - amount, r.hitpoints.2) }
        some { s with data := s.data.set index r1 }
      | none => none
    | none => some s
  else some s

/-- `HealthSystem::kill_entity`: sets current hitpoints to `f32::MIN`. -/
def HealthSystem.kill_entity (s : HealthSystem) (e : Entity) :
    Option HealthSystem :=
  if e ≠ Entity.null then
    match mget s.map e with
    | some index =>
      match s.data.get? index with
      | some r =>
        let r1 := { r with hitpoints := (f32MIN, r.hitpoints.2) }
        some { s with data := s.data.set index r1 }
      | none => none
    | none => some s
  else some s

/-- The per-record body of `HealthSystem::update`, threaded over the
dense array in order: clamp `current` down to `max` when it exceeds it,
`else if current <= 0` destroy the owner via the `EntityManager`. -/
def healthUpdateGo :
    List HealthData → EntityManager → Option (List HealthData × EntityManager)
  | [], em => some ([], em)
  | r :: rest, em =>
    if r.hitpoints.1 > r.hitpoints.2 then
      match healthUpdateGo rest em with
      | some (rest1, em1) =>
        some ({ r with hitpoints := (r.hitpoints.2, r.hitpoints.2) } :: rest1,
          em1)
      | none => none
    else if r.hitpoints.1 ≤ 0 then
      match em.destroy_entity r.owner with
      | some em1 =>
        match healthUpdateGo rest em1 with
        | some (rest1, em2) => some (r :: rest1, em2)
        | none => none
      | none => none
    else
      match healthUpdateGo rest em with
      | some (rest1, em1) => some (r :: rest1, em1)
      | none => none

/-- `HealthSystem::update(entity_manager)`. -/
def HealthSystem.update (s : HealthSystem) (em : EntityManager) :
    Option (HealthSystem × EntityManager) :=
  match healthUpdateGo s.data em with
  | some (data1, em1) => some (⟨s.map, data1⟩, em1)
  | none => none

/-! ### TransformationSystem (src/src/ecs/components/transformation.rs) -/

/-- gamemath `Quat`, carried opaquely (no claim computes with it). -/
structure Quat where
  w : ℚ
  x : ℚ
  y : ℚ
  z : ℚ
deriving DecidableEq, Repr

/-- `Quat::identity()`. -/
def Quat.identity : Quat := ⟨1, 0, 0, 0⟩

/-- `TransformationData`. -/
structure TransformationData where
  owner : Entity
  position : Vec3
  scale : Vec3
  pivot : Vec3
  rotation : Quat
deriving DecidableEq, Repr

/-- `TransformationSystem`. -/
structure TransformationSystem where
  map : EMap
  data : List TransformationData
deriving DecidableEq, Repr

/-- `TransformationBuilder`. -/
structure TransformationBuilder where
  position : Option Vec3
  scale : Option Vec3
  pivot : Option Vec3
  rotation : Option Quat
deriving DecidableEq, Repr

/-- `TransformationBuilder::new()`. -/
def TransformationBuilder.new : TransformationBuilder :=
  ⟨none, none, none, none⟩

/-- `TransformationBuilder::at_position`. -/
def TransformationBuilder.at_position (b : TransformationBuilder) (p : Vec3) :
    TransformationBuilder :=
  { b with position := some p }

/-- `TransformationBuilder::build`: zero position/pivot, unit scale,
identity rotation by default. -/
def TransformationBuilder.build (b : TransformationBuilder) (owner : Entity) :
    TransformationData :=
  ⟨owner, b.position.getD Vec3.zero, b.scale.getD ⟨1, 1, 1⟩,
    b.pivot.getD Vec3.zero, b.rotation.getD Quat.identity⟩

/-- `TransformationSystem::new()`. -/
def TransformationSystem.new : TransformationSystem := ⟨[], []⟩

/-- `TransformationSystem::entity_has_transformation`. -/
def TransformationSystem.entity_has_transformation
    (s : TransformationSystem) (e : Entity) : Bool :=
  mcontains s.map e

/-- `TransformationSystem::add_transformation_to_entity`: note there is
no null-entity guard here (unlike `add_health_to_entity`); the only
check is the double-add no-op. -/
def TransformationSystem.add_transformation_to_entity
    (s : TransformationSystem) (e : Entity)
    (initial_transformation : TransformationBuilder) : TransformationSystem :=
  if s.entity_has_transformation e then s
  else
    { map := minsert s.map e s.data.length,
      data := s.data ++ [initial_transformation.build e] }

/-- `TransformationSystem::remove_transformation_from_entity`: the same
swap-removal / map-repair pattern as the health store. -/
def TransformationSystem.remove_transformation_from_entity
    (s : TransformationSystem) (e : Entity) : Option TransformationSystem :=
  if e ≠ Entity.null then
    match mget s.map e with
    | some index =>
      match swapRemove s.data index with
      | some data1 =>
        let m1 := mremove s.map e
        if data1.length ≠ 0 ∧ index ≠ data1.length then
          match data1.get? index with
          | some moved =>
            match msetExisting m1 moved.owner index with
            | some m2 => some ⟨m2, data1⟩
            | none => none
          | none => none
        else some ⟨m1, data1⟩
      | none => none
    | none => some s
  else some s

/-- `TransformationSystem::get_position`: `none` when the entity is
unmapped (the source returns `None`) or the stored index is out of
range (the source panics). -/
def TransformationSystem.get_position (s : TransformationSystem) (e : Entity) :
    Option Vec3 :=
  match mget s.map e with
  | some index => (s.data.get? index).map (fun r => r.position)
  | none => none

/-- A read-modify-write through
`get_position_mut(..).unwrap()` (`none` models the unwrap panic). -/
def TransformationSystem.modifyPosition (s : TransformationSystem)
    (e : Entity) (f : Vec3 → Vec3) : Option TransformationSystem :=
  match mget s.map e with
  | some index =>
    match s.data.get? index with
    | some r =>
      let r1 := { r with position := f r.position }
      some { s with data := s.data.set index r1 }
    | none => none
  | none => none

/-! ### RigidBodySystem (src/src/ecs/components/rigid_body.rs) -/

/-- `CollisionManifold`. -/
structure CollisionManifold where
  penetration : ℚ
  normal : Vec3
deriving DecidableEq, Repr

/-- `struct RigidBody`. -/
structure RigidBody where
  owner : Entity
  offset : Vec3
  extents : Vec3
  velocity : Vec3
  locomotion : Vec3
  elasticity : ℚ
  inv_mass : ℚ
  gravity_immune : Bool
  foothold : Bool
  damage : ℚ
  die_on_collision : Bool
deriving DecidableEq, Repr

/-- `RigidBody::colliding(other, positions)`: AABB overlap test.
`positions.1`/`positions.2` are the two bodies' centres (the caller
adds each body's local offset).  The `_s_min` .. `_o_max` locals are
dead code kept from the source.  Overlap must be strictly positive on
all three axes; penetration is the least per-axis overlap; the normal
picks the axis of least overlap with ties favouring x, then y, else z,
and points along `direction` (`-1` when the component is negative,
`+1` otherwise, so `+1` when it is zero). -/
def RigidBody.colliding (self other : RigidBody)
    (positions : Vec3 × Vec3) : Option CollisionManifold :=
  let _s_min := positions.1 - self.extents
  let _s_max := positions.1 + self.extents
  let _o_min := positions.2 - other.extents
  let _o_max := positions.2 + other.extents
  let direction := positions.2 - positions.1
  let overlap : Vec3 :=
    ⟨self.extents.x + other.extents.x - |direction.x|,
     self.extents.y + other.extents.y - |direction.y|,
     self.extents.z + other.extents.z - |direction.z|⟩
  if overlap.x > 0 ∧ overlap.y > 0 ∧ overlap.z > 0 then
    let penetration := min overlap.x (min overlap.y overlap.z)
    let normal : Vec3 :=
      if penetration = overlap.x then
        if direction.x < 0 then ⟨-1, 0, 0⟩ else ⟨1, 0, 0⟩
      else if penetration = overlap.y then
        if direction.y < 0 then ⟨0, -1, 0⟩ else ⟨0, 1, 0⟩
      else
        if direction.z < 0 then ⟨0, 0, -1⟩ else ⟨0, 0, 1⟩
    some ⟨penetration, normal⟩
  else
    none

/-- `RigidBodySystem` state: the fixed-timestep accumulator pair
`timer = (accumulated, step)`, gravity, and the component store. -/
structure RigidBodySystem where
  timer0 : ℚ
  timer1 : ℚ
  gravity : Vec3
  map : EMap
  rigid_bodies : List RigidBody
deriving DecidableEq, Repr

/-- `RigidBodySystem::new()`: `timer = (0, 1/60)`,
`gravity = (0, -9.82, 0)`. -/
def RigidBodySystem.new : RigidBodySystem :=
  ⟨0, 1 / 60, ⟨0, -982 / 100, 0⟩, [], []⟩

/-- `RigidBodySystem::ray_vs_aabb_intersecting(aabb, ray)` with
`aabb = (position, extents)` and `ray = (origin, direction, inverse)`.
The y/z slab tightening of the source's `for i in 1..3` loop is
computed into shadowed locals that are never read (kept here as dead
`let` bindings), so the result depends on the x slab only. -/
def RigidBodySystem.ray_vs_aabb_intersecting (aabb : Vec3 × Vec3)
    (origin _direction inv : Vec3) : Bool :=
  let t1 := (aabb.1.x - aabb.2.x - origin.x) * inv.x
  let t2 := (aabb.1.x + aabb.2.x - origin.x) * inv.x
  let tmin := min t1 t2
  let tmax := max t1 t2
  let t1y := (aabb.1.y - aabb.2.y - origin.y) * inv.y
  let t2y := (aabb.1.y + aabb.2.y - origin.y) * inv.y
  let _tmin1 := max tmin (min t1y t2y)
  let _tmax1 := min tmax (max t1y t2y)
  let t1z := (aabb.1.z - aabb.2.z - origin.z) * inv.z
  let t2z := (aabb.1.z + aabb.2.z - origin.z) * inv.z
  let _tmin2 := max tmin (min t1z t2z)
  let _tmax2 := min tmax (max t1z t2z)
  decide (tmax > max tmin 0)

/-- The body scan of `RigidBodySystem::ray_cast`, keeping the running
best `(distance², entity)` hit; a strictly closer hit replaces it (on
an exact tie the earlier body is kept).  The excluded `user` entity is
skipped, but its transform is still looked up first (`unwrap`), so a
missing transform panics (`none`) even for skipped bodies. -/
def rayCastLoop (ts : TransformationSystem) (user : Entity)
    (origin direction inv : Vec3) :
    List RigidBody → Option (ℚ × Entity) → Option (Option (ℚ × Entity))
  | [], result => some result
  | collider :: rest, result =>
    match ts.get_position collider.owner with
    | some pos =>
      let aabb := (pos, collider.extents)
      if collider.owner ≠ user ∧
          RigidBodySystem.ray_vs_aabb_intersecting aabb origin direction inv then
        match result with
        | none =>
          rayCastLoop ts user origin direction inv rest
            (some ((aabb.1 - origin).length_squared, collider.owner))
        | some r =>
          let distance := (aabb.1 - origin).length_squared
          if distance < r.1 then
            rayCastLoop ts user origin direction inv rest
              (some (distance, collider.owner))
          else
            rayCastLoop ts user origin direction inv rest (some r)
      else
        rayCastLoop ts user origin direction inv rest result
    | none => none

/-- `RigidBodySystem::ray_cast(ray, transformation_system, user)` with
`ray = (origin, direction)`.  The outer `Option` models panics
(missing transforms); the inner is the source's return value.  In `ℚ`
the componentwise inverse maps a zero component to `0` rather than the
source's `f32` infinity, so theorems about this function assume a
nonzero x direction component (only `inv.x` is ever read, see
`ray_vs_aabb_intersecting`). -/
def RigidBodySystem.ray_cast (s : RigidBodySystem) (ray : Vec3 × Vec3)
    (ts : TransformationSystem) (user : Entity) :
    Option (Option (ℚ × Entity)) :=
  let inv : Vec3 := ⟨1 / ray.2.x, 1 / ray.2.y, 1 / ray.2.z⟩
  rayCastLoop ts user ray.1 ray.2 inv s.rigid_bodies none

/-- `RigidBodySystem::update_colliders(first, last, ts)`: for each body
in `[first, last)`, gravity scaled by the fixed step is added to the
velocity when the body has nonzero inverse mass and is not gravity
immune; the owner's position then advances by
`(velocity + locomotion) * timer.1` (with the freshly updated
velocity), and `locomotion`/`foothold` are reset. -/
def RigidBodySystem.update_colliders (s : RigidBodySystem)
    (first last : ℕ) (ts : TransformationSystem) :
    Option (RigidBodySystem × TransformationSystem) :=
  if first < last then
    match s.rigid_bodies.get? first with
    | some collider =>
      let velocity1 :=
        if collider.inv_mass > 0 ∧ collider.gravity_immune = false then
          collider.velocity + s.gravity * s.timer1
        else collider.velocity
      let collider1 := { collider with
        velocity := velocity1, locomotion := Vec3.zero, foothold := false }
      match ts.modifyPosition collider.owner
          (fun p => p + (velocity1 + collider.locomotion) * s.timer1) with
      | some ts1 =>
        RigidBodySystem.update_colliders
          { s with rigid_bodies := s.rigid_bodies.set first collider1 }
          (first + 1) last ts1
      | none => none
    | none => none
  else some (s, ts)
termination_by last - first

/-- `rigid_bodies[k]` read-modify-write; `none` models the indexing
panic. -/
def modifyBody (bodies : List RigidBody) (k : ℕ)
    (f : RigidBody → RigidBody) : Option (List RigidBody) :=
  match bodies.get? k with
  | some b => some (bodies.set k (f b))
  | none => none

/-- The damage / die-on-collision dispatch of the collision loop for
one body of a resolved pair (rigid_body.rs lines 495-519): if the
victim has health it is harmed by the other body's damage, and killed
(`kill_entity`) when its own `die_on_collision` flag is set. -/
def healthCollisionStep (h : HealthSystem) (victim : Entity) (dmg : ℚ)
    (dies : Bool) : Option HealthSystem :=
  if h.entity_has_health victim then
    match h.harm victim dmg with
    | some h1 => if dies then h1.kill_entity victim else some h1
    | none => none
  else some h

/-- The body of the inner collision loop of `RigidBodySystem::update`
for the pair `(i, j)` (rigid_body.rs lines 439–523): the static-static
filter, collision test against `position_1` (captured at the entry of
the outer `i` loop, hence possibly stale) and the freshly recomputed
`position_2`, foothold marking, the separating-velocity `continue`
(taken only when `rv·normal` is strictly positive), impulse
application, positional correction, and the damage / die-on-collision
side effects. -/
def resolvePair (s : RigidBodySystem) (ts : TransformationSystem)
    (hs : HealthSystem) (i j : ℕ) (position_1 : Vec3) :
    Option (RigidBodySystem × TransformationSystem × HealthSystem) :=
  match s.rigid_bodies.get? i, s.rigid_bodies.get? j with
  | some bi, some bj =>
    if bi.inv_mass ≠ 0 ∨ bj.inv_mass ≠ 0 then
      match ts.get_position bj.owner with
      | some pj =>
        let position_2 := pj + bj.offset
        match bi.colliding bj (position_1, position_2) with
        | some manifold =>
          let bodies1 :=
            if bi.inv_mass = 0 ∧ manifold.normal = (⟨0, 1, 0⟩ : Vec3) then
              s.rigid_bodies.set j { bj with foothold := true }
            else if bj.inv_mass = 0 ∧ manifold.normal = (⟨0, -1, 0⟩ : Vec3) then
              s.rigid_bodies.set i { bi with foothold := true }
            else s.rigid_bodies
          let rv := bj.velocity - bi.velocity
          let normal_vel := rv.dot manifold.normal
          -- masses = (rigid_bodies[i].inv_mass, rigid_bodies[j].inv_mass)
          let masses := (bi.inv_mass, bj.inv_mass)
          if normal_vel > 0 then
            some ({ s with rigid_bodies := bodies1 }, ts, hs)
          else
            let e := max bi.elasticity bj.elasticity
            let normal_magnitude := -(1 + e) * normal_vel / (masses.1 + masses.2)
            let impulse := manifold.normal * normal_magnitude
            match modifyBody bodies1 i
                (fun b => { b with velocity := b.velocity - impulse * masses.1 }) with
            | some bodies2 =>
              match modifyBody bodies2 j
                  (fun b => { b with velocity := b.velocity + impulse * masses.2 }) with
              | some bodies3 =>
                let mass_factor := 1 / (masses.1 + masses.2)
                let correction0 :=
                  manifold.normal * mass_factor * masses.1 * manifold.penetration
                let correction1 :=
                  manifold.normal * mass_factor * masses.2 * manifold.penetration
                match ts.modifyPosition bi.owner (fun p => p - correction0) with
                | some ts1 =>
                  match ts1.modifyPosition bj.owner (fun p => p + correction1) with
                  | some ts2 =>
                    match healthCollisionStep hs bi.owner bj.damage
                        bi.die_on_collision with
                    | some hs1 =>
                      match healthCollisionStep hs1 bj.owner bi.damage
                          bj.die_on_collision with
                      | some hs2 =>
                        some ({ s with rigid_bodies := bodies3 }, ts2, hs2)
                      | none => none
                    | none => none
                  | none => none
                | none => none
              | none => none
            | none => none
        | none => some (s, ts, hs)
      | none => none
    else some (s, ts, hs)
  | _, _ => none

/-- The inner `for j in (i + 1)..len` loop of
`RigidBodySystem::update`. -/
def pairLoopJ (i : ℕ) (position_1 : Vec3) (j stop : ℕ)
    (s : RigidBodySystem) (ts : TransformationSystem) (hs : HealthSystem) :
    Option (RigidBodySystem × TransformationSystem × HealthSystem) :=
  if j < stop then
    match resolvePair s ts hs i j position_1 with
    | some (s1, ts1, hs1) => pairLoopJ i position_1 (j + 1) stop s1 ts1 hs1
    | none => none
  else some (s, ts, hs)
termination_by stop - j

/-- The outer `for i in 0..(len - 1)` loop of
`RigidBodySystem::update`: `position_1` (the body's position plus its
offset) is captured once per `i`, before the inner loop's positional
corrections. -/
def pairLoopI (i stop : ℕ) (s : RigidBodySystem)
    (ts : TransformationSystem) (hs : HealthSystem) :
    Option (RigidBodySystem × TransformationSystem × HealthSystem) :=
  if i < stop then
    match s.rigid_bodies.get? i with
    | some bi =>
      match ts.get_position bi.owner with
      | some pi =>
        match pairLoopJ i (pi + bi.offset) (i + 1) s.rigid_bodies.length
            s ts hs with
        | some (s1, ts1, hs1) => pairLoopI (i + 1) stop s1 ts1 hs1
        | none => none
      | none => none
    | none => none
  else some (s, ts, hs)
termination_by stop - i

/-- One physics sub-step of `RigidBodySystem::update`: integrate all
bodies, then resolve all pairs.  (With zero bodies the source's
`len - 1` underflows `usize` and panics; that point is unreachable
because the sub-step loop requires `count > 0`, and the `ℕ`
truncation here makes the pair scan empty instead.) -/
def substep (s : RigidBodySystem) (ts : TransformationSystem)
    (hs : HealthSystem) :
    Option (RigidBodySystem × TransformationSystem × HealthSystem) :=
  match s.update_colliders 0 s.rigid_bodies.length ts with
  | some (s1, ts1) => pairLoopI 0 (s1.rigid_bodies.length - 1) s1 ts1 hs
  | none => none

/-- `n`-fold iteration of `substep` (used to state how many sub-steps
an `update` call performs). -/
def substepN : ℕ → RigidBodySystem → TransformationSystem → HealthSystem →
    Option (RigidBodySystem × TransformationSystem × HealthSystem)
  | 0, s, ts, hs => some (s, ts, hs)
  | n + 1, s, ts, hs =>
    match substep s ts hs with
    | some (s1, ts1, hs1) => substepN n s1 ts1 hs1
    | none => none

/-- The `while timer.0 >= timer.1 && count > 0` loop of
`RigidBodySystem::update`, with the accumulator threaded as `t` (the
loop body never touches the timer, so this is the source's state).
The source loop diverges when the fixed step is not positive; the
constructor sets it to `1/60`, and the `0 < step` conjunct makes the
recursion well-founded without changing any terminating behaviour. -/
def physLoop (step : ℚ) (count : ℕ) (t : ℚ) (s : RigidBodySystem)
    (ts : TransformationSystem) (hs : HealthSystem) :
    Option (ℚ × RigidBodySystem × TransformationSystem × HealthSystem) :=
  if h : step ≤ t ∧ 0 < step ∧ 0 < count then
    match substep s ts hs with
    | some (s1, ts1, hs1) => physLoop step count (t - step) s1 ts1 hs1
    | none => none
  else some (t, s, ts, hs)
termination_by ⌊t / step⌋₊
decreasing_by
  have hpos := h.2.1
  have hone : (1 : ℚ) ≤ t / step := (one_le_div hpos).mpr h.1
  have hfl : 1 ≤ ⌊t / step⌋₊ := Nat.le_floor (by exact_mod_cast hone)
  have hdiv : (t - step) / step = t / step - 1 := by
    rw [sub_div, div_self (ne_of_gt hpos)]
  rw [hdiv, Nat.floor_sub_one]
  omega

/-- `RigidBodySystem::update(dt, transformation_system,
health_system)`: accumulate `dt`, capture the body count, run the
fixed-step loop, and store the drained accumulator back. -/
def RigidBodySystem.update (s : RigidBodySystem) (dt : ℚ)
    (ts : TransformationSystem) (hs : HealthSystem) :
    Option (RigidBodySystem × TransformationSystem × HealthSystem) :=
  match physLoop s.timer1 s.rigid_bodies.length (s.timer0 + dt) s ts hs with
  | some (t1, s1, ts1, hs1) => some ({ s1 with timer0 := t1 }, ts1, hs1)
  | none => none

/-! ## Basic lemmas about the sparse map -/

theorem mget_append (m1 m2 : EMap) (e : Entity) :
    mget (m1 ++ m2) e = ((mget m1 e).rec (mget m2 e) (fun v => some v)) := by
  induction m1 with
  | nil => rfl
  | cons p rest ih =>
    obtain ⟨k, v⟩ := p
    by_cases h : k = e <;> simp [mget, h, ih]

theorem mget_append_left {m1 : EMap} {e : Entity} {v : ℕ} (m2 : EMap)
    (h : mget m1 e = some v) : mget (m1 ++ m2) e = some v := by
  rw [mget_append, h]

theorem mget_append_right {m1 : EMap} {e : Entity} (m2 : EMap)
    (h : mget m1 e = none) : mget (m1 ++ m2) e = mget m2 e := by
  rw [mget_append, h]

theorem mget_replace_self (m : EMap) (e : Entity) (v : ℕ) :
    mget (mreplace m e v) e = (mget m e).map (fun _ => v) := by
  induction m with
  | nil => rfl
  | cons p rest ih =>
    obtain ⟨k, w⟩ := p
    by_cases h : k = e
    · subst h
      rw [mreplace, if_pos rfl]
      simp [mget, ih]
    · rw [mreplace, if_neg h]
      simp [mget, h, ih]

theorem mget_replace_ne (m : EMap) {e e' : Entity} (v : ℕ) (h : e' ≠ e) :
    mget (mreplace m e v) e' = mget m e' := by
  induction m with
  | nil => rfl
  | cons p rest ih =>
    obtain ⟨k, w⟩ := p
    by_cases hk : k = e
    · subst hk
      rw [mreplace, if_pos rfl]
      simp [mget, Ne.symm h, ih]
    · rw [mreplace, if_neg hk]
      simp [mget, ih]

theorem mget_minsert_self (m : EMap) (e : Entity) (v : ℕ) :
    mget (minsert m e v) e = some v := by
  unfold minsert
  by_cases h : (mget m e).isSome
  · rw [if_pos h, mget_replace_self]
    obtain ⟨w, hw⟩ := Option.isSome_iff_exists.mp h
    simp [hw]
  · rw [if_neg h]
    have : mget m e = none := Option.not_isSome_iff_eq_none.mp h
    rw [mget_append_right _ this]
    simp [mget]

theorem mget_minsert_ne (m : EMap) {e e' : Entity} (v : ℕ) (h : e' ≠ e) :
    mget (minsert m e v) e' = mget m e' := by
  unfold minsert
  by_cases hs : (mget m e).isSome
  · rw [if_pos hs, mget_replace_ne _ _ h]
  · rw [if_neg hs, mget_append]
    cases hm : mget m e' with
    | none => simp [mget, Ne.symm h]
    | some w => simp

theorem mget_mremove_self (m : EMap) (e : Entity) :
    mget (mremove m e) e = none := by
  induction m with
  | nil => rfl
  | cons p rest ih =>
    obtain ⟨k, w⟩ := p
    by_cases h : k = e
    · simpa [mremove, h] using ih
    · simpa [mremove, mget, h] using ih

theorem mget_mremove_ne (m : EMap) {e e' : Entity} (h : e' ≠ e) :
    mget (mremove m e) e' = mget m e' := by
  induction m with
  | nil => rfl
  | cons p rest ih =>
    obtain ⟨k, w⟩ := p
    by_cases hk : k = e
    · subst hk
      simpa [mremove, mget, Ne.symm h] using ih
    · by_cases hk' : k = e'
      · subst hk'
        simp [mremove, mget, hk, ih]
      · simpa [mremove, mget, hk, hk'] using ih

theorem msetExisting_eq_some {m m' : EMap} {e : Entity} {v : ℕ}
    (h : msetExisting m e v = some m') :
    m' = mreplace m e v ∧ (mget m e).isSome := by
  unfold msetExisting at h
  by_cases hs : (mget m e).isSome
  · rw [if_pos hs] at h
    exact ⟨(Option.some.injEq _ _).mp h |>.symm, hs⟩
  · rw [if_neg hs] at h
    exact absurd h (by simp)

theorem msetExisting_isSome {m : EMap} {e : Entity} (v : ℕ)
    (h : (mget m e).isSome) : (msetExisting m e v).isSome := by
  unfold msetExisting
  rw [if_pos h]
  rfl

/-! ## C10: null-entity guard asymmetry between component stores -/

/-- C10.  `TransformationSystem::add_transformation_to_entity` performs
no null-entity guard: when the null entity has no transformation,
adding one inserts a record and `entity_has_transformation(null)`
becomes true.  `HealthSystem::add_health_to_entity`, by contrast, is a
silent no-op for the null entity (it returns the store unchanged). -/
theorem add_null_guard_asymmetry :
    (∀ (ts : TransformationSystem) (b : TransformationBuilder),
        ts.entity_has_transformation Entity.null = false →
        (ts.add_transformation_to_entity Entity.null b).entity_has_transformation
          Entity.null = true) ∧
    (∀ (hs : HealthSystem) (b : HealthBuilder),
        hs.add_health_to_entity Entity.null b = hs) := by
  constructor
  · intro ts b h
    unfold TransformationSystem.add_transformation_to_entity
    rw [if_neg (by simp [h])]
    simp [TransformationSystem.entity_has_transformation, mcontains,
      mget_minsert_self]
  · intro hs b
    unfold HealthSystem.add_health_to_entity
    simp

/-- Witness for C10: on the empty stores, adding to the null entity
flips `entity_has_transformation` to true while the health store is
left untouched. -/
theorem add_null_guard_asymmetry_witness :
    (TransformationSystem.new.add_transformation_to_entity Entity.null
      TransformationBuilder.new).entity_has_transformation Entity.null = true ∧
    HealthSystem.new.add_health_to_entity Entity.null HealthBuilder.new =
      HealthSystem.new := by
  exact ⟨add_null_guard_asymmetry.1 TransformationSystem.new
    TransformationBuilder.new (by decide),
    add_null_guard_asymmetry.2 HealthSystem.new HealthBuilder.new⟩

/-! ## C3: collision manifold computation -/

/-- Closed form of `RigidBody::colliding` (definitional unfolding). -/
theorem colliding_eq (b1 b2 : RigidBody) (p1 p2 : Vec3) :
    b1.colliding b2 (p1, p2) =
      (if 0 < b1.extents.x + b2.extents.x - |p2.x - p1.x| ∧
          0 < b1.extents.y + b2.extents.y - |p2.y - p1.y| ∧
          0 < b1.extents.z + b2.extents.z - |p2.z - p1.z| then
        some ⟨min (b1.extents.x + b2.extents.x - |p2.x - p1.x|)
                (min (b1.extents.y + b2.extents.y - |p2.y - p1.y|)
                  (b1.extents.z + b2.extents.z - |p2.z - p1.z|)),
          if min (b1.extents.x + b2.extents.x - |p2.x - p1.x|)
                (min (b1.extents.y + b2.extents.y - |p2.y - p1.y|)
                  (b1.extents.z + b2.extents.z - |p2.z - p1.z|)) =
              b1.extents.x + b2.extents.x - |p2.x - p1.x| then
            (if p2.x - p1.x < 0 then ⟨-1, 0, 0⟩ else ⟨1, 0, 0⟩)
          else if min (b1.extents.x + b2.extents.x - |p2.x - p1.x|)
                (min (b1.extents.y + b2.extents.y - |p2.y - p1.y|)
                  (b1.extents.z + b2.extents.z - |p2.z - p1.z|)) =
              b1.extents.y + b2.extents.y - |p2.y - p1.y| then
            (if p2.y - p1.y < 0 then ⟨0, -1, 0⟩ else ⟨0, 1, 0⟩)
          else
            (if p2.z - p1.z < 0 then ⟨0, 0, -1⟩ else ⟨0, 0, 1⟩)⟩
      else none) := rfl

/-- C3.  Collision manifold computation: a collision is detected iff
`extents_i + extents_j - |position_j - position_i|` is positive on all
three axes; the manifold's penetration is the minimum of the three
per-axis overlaps; the normal is the axis-aligned unit vector on the
minimum-overlap axis — ties resolved x first, then y, else z — signed
by the sign of `direction` on that axis (`-1` for a negative component,
`+1` otherwise).  Concretely, unit-half-extent AABBs at `(0,0,0)` and
`(1.5,0,0)` give penetration `0.5` with normal `(1,0,0)`, and
`(-1,0,0)` with the argument order swapped.  (The caller in
`RigidBodySystem::update` passes positions that already include each
body's local offset.) -/
theorem collision_manifold_spec :
    (∀ (b1 b2 : RigidBody) (p1 p2 : Vec3),
      (b1.colliding b2 (p1, p2)).isSome = true ↔
        (0 < b1.extents.x + b2.extents.x - |p2.x - p1.x| ∧
         0 < b1.extents.y + b2.extents.y - |p2.y - p1.y| ∧
         0 < b1.extents.z + b2.extents.z - |p2.z - p1.z|)) ∧
    (∀ (b1 b2 : RigidBody) (p1 p2 : Vec3) (m : CollisionManifold),
      b1.colliding b2 (p1, p2) = some m →
        m.penetration = min (b1.extents.x + b2.extents.x - |p2.x - p1.x|)
          (min (b1.extents.y + b2.extents.y - |p2.y - p1.y|)
            (b1.extents.z + b2.extents.z - |p2.z - p1.z|)) ∧
        (m.penetration = b1.extents.x + b2.extents.x - |p2.x - p1.x| →
          m.normal = ⟨if p2.x - p1.x < 0 then -1 else 1, 0, 0⟩) ∧
        (m.penetration ≠ b1.extents.x + b2.extents.x - |p2.x - p1.x| →
          m.penetration = b1.extents.y + b2.extents.y - |p2.y - p1.y| →
          m.normal = ⟨0, if p2.y - p1.y < 0 then -1 else 1, 0⟩) ∧
        (m.penetration ≠ b1.extents.x + b2.extents.x - |p2.x - p1.x| →
          m.penetration ≠ b1.extents.y + b2.extents.y - |p2.y - p1.y| →
          m.normal = ⟨0, 0, if p2.z - p1.z < 0 then -1 else 1⟩)) ∧
    (RigidBody.colliding
        ⟨⟨1⟩, Vec3.zero, ⟨1, 1, 1⟩, Vec3.zero, Vec3.zero, 0, 1, false, false, 0, false⟩
        ⟨⟨2⟩, Vec3.zero, ⟨1, 1, 1⟩, Vec3.zero, Vec3.zero, 0, 1, false, false, 0, false⟩
        (⟨0, 0, 0⟩, ⟨3 / 2, 0, 0⟩) = some ⟨1 / 2, ⟨1, 0, 0⟩⟩ ∧
      RigidBody.colliding
        ⟨⟨2⟩, Vec3.zero, ⟨1, 1, 1⟩, Vec3.zero, Vec3.zero, 0, 1, false, false, 0, false⟩
        ⟨⟨1⟩, Vec3.zero, ⟨1, 1, 1⟩, Vec3.zero, Vec3.zero, 0, 1, false, false, 0, false⟩
        (⟨3 / 2, 0, 0⟩, ⟨0, 0, 0⟩) = some ⟨1 / 2, ⟨-1, 0, 0⟩⟩) := by
  refine ⟨?_, ?_, by rw [colliding_eq]; norm_num [min_def, abs_of_nonneg],
    by rw [colliding_eq]; norm_num [min_def, abs_of_nonneg]⟩
  · intro b1 b2 p1 p2
    rw [colliding_eq]
    by_cases h : (0 < b1.extents.x + b2.extents.x - |p2.x - p1.x| ∧
        0 < b1.extents.y + b2.extents.y - |p2.y - p1.y| ∧
        0 < b1.extents.z + b2.extents.z - |p2.z - p1.z|)
    · simp [h]
    · simp [h]
  · intro b1 b2 p1 p2 m hm
    rw [colliding_eq] at hm
    by_cases h : (0 < b1.extents.x + b2.extents.x - |p2.x - p1.x| ∧
        0 < b1.extents.y + b2.extents.y - |p2.y - p1.y| ∧
        0 < b1.extents.z + b2.extents.z - |p2.z - p1.z|)
    · rw [if_pos h] at hm
      have hm' := (Option.some.injEq _ _).mp hm
      subst hm'
      refine ⟨rfl, ?_, ?_, ?_⟩
      · intro h1
        simp only at h1 ⊢
        rw [if_pos h1]
        split_ifs <;> rfl
      · intro h1 h2
        simp only at h1 h2 ⊢
        rw [if_neg h1, if_pos h2]
        split_ifs <;> rfl
      · intro h1 h2
        simp only at h1 h2 ⊢
        rw [if_neg h1, if_neg h2]
        split_ifs <;> rfl
    · rw [if_neg h] at hm
      exact absurd hm (by simp)

/-- Witness for C3: the manifold of the concrete overlapping pair has
the penetration and normal the characterisation demands. -/
theorem collision_manifold_spec_witness :
    (⟨1 / 2, ⟨1, 0, 0⟩⟩ : CollisionManifold).penetration =
        min ((1 : ℚ) + 1 - |3 / 2 - 0|) (min (1 + 1 - |0 - 0|) (1 + 1 - |0 - 0|)) ∧
      (⟨1 / 2, ⟨1, 0, 0⟩⟩ : CollisionManifold).normal =
        ⟨if (3 / 2 : ℚ) - 0 < 0 then -1 else 1, 0, 0⟩ := by
  have h := collision_manifold_spec.2.1
    ⟨⟨1⟩, Vec3.zero, ⟨1, 1, 1⟩, Vec3.zero, Vec3.zero, 0, 1, false, false, 0, false⟩
    ⟨⟨2⟩, Vec3.zero, ⟨1, 1, 1⟩, Vec3.zero, Vec3.zero, 0, 1, false, false, 0, false⟩
    ⟨0, 0, 0⟩ ⟨3 / 2, 0, 0⟩ ⟨1 / 2, ⟨1, 0, 0⟩⟩
    (by rw [colliding_eq]; norm_num [min_def, abs_of_nonneg])
  exact ⟨h.1, h.2.1 (by norm_num [min_def, abs_of_nonneg])⟩

/-! ## C2: entity identity -/

theorem entity_new_index {i : ℕ} (g : ℕ) (hi : i < 2 ^ 24) :
    (Entity.new i g).index = i := by
  show (i % 2 ^ 24 + g % 2 ^ 8 * 2 ^ 24) % 2 ^ 24 = i
  omega

theorem entity_new_generation (i g : ℕ) :
    (Entity.new i g).generation = g % 2 ^ 8 := by
  show (i % 2 ^ 24 + g % 2 ^ 8 * 2 ^ 24) / 2 ^ 24 % 2 ^ 8 = g % 2 ^ 8
  omega

theorem get?_some_lt {α : Type _} {l : List α} {n : ℕ} {a : α}
    (h : l.get? n = some a) : n < l.length := by
  by_contra hle
  rw [List.get?_eq_none.mpr (by omega)] at h
  exact absurd h (by simp)

theorem entity_generation_lt (e : Entity) : e.generation < 2 ^ 8 :=
  Nat.mod_lt _ (by norm_num)

/-- `entity_is_alive` returns `some true` exactly when the generation
table stores the handle's generation at the handle's index. -/
theorem alive_eq_some_true {m : EntityManager} {e : Entity} :
    m.entity_is_alive e = some true ↔
      m.generation.get? e.index = some e.generation := by
  unfold EntityManager.entity_is_alive
  cases h : m.generation.get? e.index with
  | none => simp
  | some g => simp

/-- `create_new_entity` never changes an existing generation-table
entry (the recycle branch leaves the table alone; the push branch only
appends). -/
theorem create_gen_pres {m m1 : EntityManager} {e : Entity}
    (hc : m.create_new_entity = some (m1, e)) :
    ∀ {idx g : ℕ}, m.generation.get? idx = some g →
      m1.generation.get? idx = some g := by
  intro idx g hidx
  unfold EntityManager.create_new_entity at hc
  by_cases hfree : m.free_indices.length > MINIMUM_FREE_INDICES
  · rw [if_pos hfree] at hc
    cases hfl : m.free_indices with
    | nil => rw [hfl] at hc; exact absurd hc (by simp)
    | cons idx0 rest0 =>
      rw [hfl] at hc
      dsimp only at hc
      by_cases hlt : idx0 < m.active.length
      · rw [if_pos hlt] at hc
        cases hg0 : m.generation.get? idx0 with
        | none => rw [hg0] at hc; exact absurd hc (by simp)
        | some g0 =>
          rw [hg0] at hc
          dsimp only at hc
          have h1 := Option.some.inj hc
          injection h1 with hM hE
          subst hM
          exact hidx
      · rw [if_neg hlt] at hc; exact absurd hc (by simp)
  · rw [if_neg hfree] at hc
    dsimp only at hc
    cases hg0 : (m.generation ++ [0]).get? ((m.generation ++ [0]).length - 1) with
    | none => rw [hg0] at hc; exact absurd hc (by simp)
    | some g0 =>
      rw [hg0] at hc
      dsimp only at hc
      have h1 := Option.some.inj hc
      injection h1 with hM hE
      subst hM
      have hlen : idx < m.generation.length := get?_some_lt hidx
      show (m.generation ++ [0]).get? idx = some g
      exact (List.get?_append hlen).trans hidx

/-- The generation stored at a fixed index after a trace: each
`destroy` whose handle carries that index bumps it once (mod 256);
`create` calls never change it. -/
theorem runEMOps_gen_at (idx : ℕ) :
    ∀ (ops : List EOp) (g : ℕ) (m m' : EntityManager), g < 2 ^ 8 →
      runEMOps ops m = some m' → m.generation.get? idx = some g →
      m'.generation.get? idx =
        some ((g + destroyCountAt idx ops) % 2 ^ 8) := by
  intro ops
  induction ops with
  | nil =>
    intro g m m' hg hrun hidx
    have : m = m' := by simpa [runEMOps] using hrun
    subst this
    simp only [destroyCountAt, Nat.add_zero, Nat.mod_eq_of_lt hg]
    exact hidx
  | cons op rest ih =>
    intro g m m' hg hrun hidx
    cases op with
    | create =>
      cases hc : m.create_new_entity with
      | none => rw [runEMOps, hc] at hrun; exact absurd hrun (by simp)
      | some p =>
        obtain ⟨m1, e⟩ := p
        rw [runEMOps, hc] at hrun
        have := ih g m1 m' hg hrun (create_gen_pres hc hidx)
        simpa [destroyCountAt] using this
    | destroy e =>
      cases hd : m.destroy_entity e with
      | none => rw [runEMOps, hd] at hrun; exact absurd hrun (by simp)
      | some m1 =>
        rw [runEMOps, hd] at hrun
        unfold EntityManager.destroy_entity at hd
        by_cases hi : e.index = idx
        · rw [hi, hidx] at hd
          have hm1 := (Option.some.injEq _ _).mp hd
          have hlen : idx < m.generation.length := get?_some_lt hidx
          have hidx1 : m1.generation.get? idx = some ((g + 1) % 2 ^ 8) := by
            rw [← hm1]
            exact List.get?_set_eq_of_lt _ hlen
          have := ih ((g + 1) % 2 ^ 8) m1 m'
            (Nat.mod_lt _ (by norm_num)) hrun hidx1
          rw [this, destroyCountAt, hi]
          simp only [if_true, eq_self_iff_true, Nat.mod_add_mod]
          congr 1
          omega
        · cases hge : m.generation.get? e.index with
          | none => rw [hge] at hd; exact absurd hd (by simp)
          | some ge =>
            rw [hge] at hd
            have hm1 := (Option.some.injEq _ _).mp hd
            have hidx1 : m1.generation.get? idx = some g := by
              rw [← hm1]
              exact (List.get?_set_ne _ _ hi).trans hidx
            have := ih g m1 m' hg hrun hidx1
            rw [this, destroyCountAt]
            simp [hi]

theorem mod_add_ne {g K : ℕ} (hg : g < 2 ^ 8) (hk1 : 1 ≤ K)
    (hk : K < 2 ^ 8) : (g + K) % 2 ^ 8 ≠ g := by
  intro h
  have hmod : (g + K) % 2 ^ 8 = g % 2 ^ 8 := by
    rw [h, Nat.mod_eq_of_lt hg]
  have hdvd : (2 ^ 8 : ℕ) ∣ K := by
    have h2 := (Nat.modEq_iff_dvd' (Nat.le_add_right g K)).mp hmod.symm
    simpa using h2
  have := Nat.le_of_dvd (by omega) hdvd
  omega

/-- C2.  Entity identity.  On any manager state whose generation table
is well-formed (all stored generations fit in 8 bits, the tables have
equal length, and the index space is not exhausted):
(1) the handle returned by `create_new_entity` satisfies
`entity_is_alive` immediately;
(2) once a live handle is destroyed, `entity_is_alive` stays false for
it across any further sequence of `create_new_entity`/`destroy_entity`
calls — including ones that reuse the index — as long as the total
number of destroys at that index (starting with this one) stays below
256, the 8-bit generation wrap. -/
theorem entity_identity :
    ∀ (m : EntityManager),
      (∀ g ∈ m.generation, g < 2 ^ 8) →
      m.active.length = m.generation.length →
      m.generation.length < 2 ^ 24 →
      ((∀ (m1 : EntityManager) (e : Entity),
          m.create_new_entity = some (m1, e) →
          m1.entity_is_alive e = some true) ∧
       (∀ (e : Entity) (ops : List EOp) (m' : EntityManager),
          m.entity_is_alive e = some true →
          runEMOps (EOp.destroy e :: ops) m = some m' →
          destroyCountAt e.index (EOp.destroy e :: ops) < 2 ^ 8 →
          m'.entity_is_alive e = some false)) := by
  intro m hgen hlen hcap
  constructor
  · intro m1 e hc
    unfold EntityManager.create_new_entity at hc
    by_cases hfree : m.free_indices.length > MINIMUM_FREE_INDICES
    · rw [if_pos hfree] at hc
      cases hfl : m.free_indices with
      | nil => rw [hfl] at hc; exact absurd hc (by simp)
      | cons idx0 rest0 =>
        rw [hfl] at hc
        dsimp only at hc
        by_cases hlt : idx0 < m.active.length
        · rw [if_pos hlt] at hc
          cases hg0 : m.generation.get? idx0 with
          | none => rw [hg0] at hc; exact absurd hc (by simp)
          | some g0 =>
            rw [hg0] at hc
            dsimp only at hc
            have h1 := Option.some.inj hc
            injection h1 with hM hE
            subst hM
            subst hE
            have hidx0 : idx0 < 2 ^ 24 := by omega
            have hg0lt : g0 < 2 ^ 8 := hgen g0 (List.get?_mem hg0)
            rw [alive_eq_some_true, entity_new_index _ hidx0,
              entity_new_generation, Nat.mod_eq_of_lt hg0lt]
            exact hg0
        · rw [if_neg hlt] at hc; exact absurd hc (by simp)
    · rw [if_neg hfree] at hc
      dsimp only at hc
      have hgets : (m.generation ++ [0]).get? ((m.generation ++ [0]).length - 1) =
          some 0 := by
        simp only [List.length_append, List.length_cons, List.length_nil,
          Nat.add_sub_cancel]
        exact List.get?_concat_length m.generation 0
      rw [hgets] at hc
      dsimp only at hc
      have h1 := Option.some.inj hc
      injection h1 with hM hE
      subst hM
      subst hE
      have hlen1 : (m.generation ++ [0]).length - 1 = m.generation.length := by
        simp
      rw [alive_eq_some_true, hlen1, entity_new_index _ hcap,
        entity_new_generation]
      show (m.generation ++ [0]).get? m.generation.length = some (0 % 2 ^ 8)
      simpa using List.get?_concat_length m.generation 0
  · intro e ops m' halive hrun hcount
    have hidx : m.generation.get? e.index = some e.generation :=
      alive_eq_some_true.mp halive
    rw [runEMOps] at hrun
    cases hd : m.destroy_entity e with
    | none => rw [hd] at hrun; exact absurd hrun (by simp)
    | some m1 =>
      rw [hd] at hrun
      unfold EntityManager.destroy_entity at hd
      rw [hidx] at hd
      have hm1 := (Option.some.injEq _ _).mp hd
      have hlenidx : e.index < m.generation.length := get?_some_lt hidx
      have hidx1 : m1.generation.get? e.index =
          some ((e.generation + 1) % 2 ^ 8) := by
        rw [← hm1]
        exact List.get?_set_eq_of_lt _ hlenidx
      have hfin := runEMOps_gen_at e.index ops ((e.generation + 1) % 2 ^ 8)
        m1 m' (Nat.mod_lt _ (by norm_num)) hrun hidx1
      have hK : destroyCountAt e.index (EOp.destroy e :: ops) =
          1 + destroyCountAt e.index ops := by
        rw [destroyCountAt]
        simp
      have hne : ((e.generation + 1) % 2 ^ 8 + destroyCountAt e.index ops)
          % 2 ^ 8 ≠ e.generation := by
        rw [Nat.mod_add_mod]
        have : e.generation + 1 + destroyCountAt e.index ops =
            e.generation + (1 + destroyCountAt e.index ops) := by ring
        rw [this]
        exact mod_add_ne (entity_generation_lt e) (by omega) (by omega)
      unfold EntityManager.entity_is_alive
      rw [hfin, Option.map_some', decide_eq_false hne]

/-- Witness for C2: creating an entity on the freshly constructed
manager yields a live handle; destroying it leaves the handle dead. -/
theorem entity_identity_witness :
    EntityManager.entity_is_alive ⟨[0, 0], [true, true], []⟩ ⟨1⟩ = some true ∧
    EntityManager.entity_is_alive ⟨[0, 1], [true, true], [1]⟩ ⟨1⟩ = some false := by
  constructor
  · exact (entity_identity EntityManager.new (by decide) (by decide)
      (by decide)).1 ⟨[0, 0], [true, true], []⟩ ⟨1⟩ (by decide)
  · exact (entity_identity ⟨[0, 0], [true, true], []⟩ (by decide) (by decide)
      (by decide)).2 ⟨1⟩ [] ⟨[0, 1], [true, true], [1]⟩ (by decide)
      (by decide) (by decide)

/-! ## C1: component store invariant and round trip -/

/-- The two-sided store invariant shared by every component system:
`map[e] = i` exactly when dense slot `i` is live and owned by `e`.  In
the list model the dense array is gap-free by construction, and the
invariant pins every mapped index below `data.length`. -/
def StoreInv {α : Type _} (owner : α → Entity) (map : EMap)
    (data : List α) : Prop :=
  (∀ e i, mget map e = some i → ∃ r, data.get? i = some r ∧ owner r = e) ∧
  (∀ i r, data.get? i = some r → mget map (owner r) = some i)

theorem store_functional {α : Type _} {owner : α → Entity} {map : EMap}
    {data : List α} (inv : StoreInv owner map data) {a b : Entity} {i : ℕ}
    (ha : mget map a = some i) (hb : mget map b = some i) : a = b := by
  obtain ⟨ra, hra, hoa⟩ := inv.1 a i ha
  obtain ⟨rb, hrb, hob⟩ := inv.1 b i hb
  have : ra = rb := Option.some.inj (hra.symm.trans hrb)
  rw [← hoa, ← hob, this]

/-- What `swap_remove` does to the dense array, slot by slot. -/
theorem swapRemove_some {α : Type _} {l : List α} {i : ℕ} {l1 : List α}
    (h : swapRemove l i = some l1) :
    i < l.length ∧ l1.length = l.length - 1 ∧
    (∀ j, j < l.length - 1 →
      l1.get? j = if j = i then l.get? (l.length - 1) else l.get? j) ∧
    (∀ j, l.length - 1 ≤ j → l1.get? j = none) := by
  unfold swapRemove at h
  by_cases hi : i < l.length
  · rw [dif_pos hi] at h
    have hl1 := (Option.some.inj h).symm
    subst hl1
    have hne : l ≠ [] := List.ne_nil_of_length_pos (by omega)
    have hlast : l.get? (l.length - 1) = some (l.getLast hne) := by
      rw [List.getLast_eq_get]
      exact List.get?_eq_get _
    refine ⟨hi, by simp, ?_, ?_⟩
    · intro j hj
      rw [List.dropLast_eq_take, List.length_set, List.get?_take hj]
      by_cases hji : j = i
      · subst hji
        rw [if_pos rfl, List.get?_set_eq_of_lt _ hi, hlast]
      · rw [if_neg hji, List.get?_set_ne _ _ (fun hh => hji hh.symm)]
    · intro j hj
      rw [List.dropLast_eq_take, List.length_set]
      apply List.get?_eq_none.mpr
      rw [List.length_take, List.length_set]
      omega
  · rw [dif_neg hi] at h
    exact absurd h (by simp)

/-- Appending a fresh record and mapping its owner to the new last
index preserves the store invariant. -/
theorem storeInv_add {α : Type _} {owner : α → Entity} {map : EMap}
    {data : List α} (inv : StoreInv owner map data) {e : Entity} {r : α}
    (hnew : mget map e = none) (hown : owner r = e) :
    StoreInv owner (minsert map e data.length) (data ++ [r]) := by
  constructor
  · intro e' i hi
    by_cases he : e' = e
    · subst he
      rw [mget_minsert_self] at hi
      have : data.length = i := Option.some.inj hi
      subst this
      exact ⟨r, List.get?_concat_length data r, hown⟩
    · rw [mget_minsert_ne _ _ he] at hi
      obtain ⟨r', hr', ho'⟩ := inv.1 e' i hi
      exact ⟨r', (List.get?_append (get?_some_lt hr')).trans hr', ho'⟩
  · intro i r' hr'
    have hlen : i < data.length + 1 := by
      have := get?_some_lt hr'
      simpa using this
    by_cases hi : i < data.length
    · rw [List.get?_append hi] at hr'
      have h2 := inv.2 i r' hr'
      have hne : owner r' ≠ e := by
        intro hh
        rw [hh, hnew] at h2
        exact absurd h2 (by simp)
      rw [mget_minsert_ne _ _ hne]
      exact h2
    · have hieq : i = data.length := by omega
      subst hieq
      rw [List.get?_concat_length] at hr'
      have : r = r' := Option.some.inj hr'
      subst this
      rw [hown, mget_minsert_self]

/-- The two outcomes of the swap-removal at a mapped index: removing
the last slot needs no repair; otherwise the moved record is the old
last element, its owner is distinct from the removed entity and still
mapped, and repairing its map entry restores the invariant. -/
theorem storeInv_remove_cases {α : Type _} {owner : α → Entity} {map : EMap}
    {data : List α} (inv : StoreInv owner map data) {e : Entity} {index : ℕ}
    (hidx : mget map e = some index) {data1 : List α}
    (hsw : swapRemove data index = some data1) :
    (index = data1.length → StoreInv owner (mremove map e) data1) ∧
    (index ≠ data1.length →
      ∃ moved, data1.get? index = some moved ∧ owner moved ≠ e ∧
        (mget (mremove map e) (owner moved)).isSome = true ∧
        StoreInv owner (mreplace (mremove map e) (owner moved) index) data1) := by
  obtain ⟨hilt, hlen1, hchar, hnone⟩ := swapRemove_some hsw
  constructor
  · intro hieq
    have hieq' : index = data.length - 1 := by omega
    constructor
    · intro e' i hi
      have he' : e' ≠ e := by
        intro hh
        subst hh
        rw [mget_mremove_self] at hi
        exact absurd hi (by simp)
      rw [mget_mremove_ne _ he'] at hi
      obtain ⟨r', hr', ho'⟩ := inv.1 e' i hi
      have hine : i ≠ index := by
        intro hh
        subst hh
        exact he' (store_functional inv hi hidx)
      have hilt' : i < data.length := get?_some_lt hr'
      refine ⟨r', ?_, ho'⟩
      rw [hchar i (by omega), if_neg hine]
      exact hr'
    · intro i r' hr'
      have hilt2 : i < data.length - 1 := by
        by_contra hh
        rw [hnone i (by omega)] at hr'
        exact absurd hr' (by simp)
      rw [hchar i hilt2, if_neg (by omega)] at hr'
      have h2 := inv.2 i r' hr'
      have hne : owner r' ≠ e := by
        intro hh
        rw [hh, hidx] at h2
        have := Option.some.inj h2
        omega
      rw [mget_mremove_ne _ hne]
      exact h2
  · intro hneq
    have hlast : index < data.length - 1 := by omega
    obtain ⟨lastr, hlastr⟩ : ∃ r, data.get? (data.length - 1) = some r := by
      cases hg : data.get? (data.length - 1) with
      | none =>
        rw [List.get?_eq_none] at hg
        omega
      | some r => exact ⟨r, rfl⟩
    have hmovedeq : data1.get? index = some lastr := by
      rw [hchar index hlast, if_pos rfl]
      exact hlastr
    have hlown := inv.2 _ _ hlastr
    have hlne : owner lastr ≠ e := by
      intro hh
      rw [hh, hidx] at hlown
      have := Option.some.inj hlown
      omega
    have hm1 : mget (mremove map e) (owner lastr) = some (data.length - 1) := by
      rw [mget_mremove_ne _ hlne]
      exact hlown
    refine ⟨lastr, hmovedeq, hlne, by rw [hm1]; rfl, ?_, ?_⟩
    · intro e' i hi
      by_cases he' : e' = owner lastr
      · subst he'
        rw [mget_replace_self, hm1] at hi
        have : index = i := Option.some.inj hi
        subst this
        exact ⟨lastr, hmovedeq, rfl⟩
      · rw [mget_replace_ne _ _ he'] at hi
        have hee : e' ≠ e := by
          intro hh
          subst hh
          rw [mget_mremove_self] at hi
          exact absurd hi (by simp)
        rw [mget_mremove_ne _ hee] at hi
        obtain ⟨r', hr', ho'⟩ := inv.1 e' i hi
        have hine : i ≠ index := fun hh => hee (store_functional inv (hh ▸ hi) hidx)
        have hineL : i ≠ data.length - 1 := by
          intro hh
          exact he' (store_functional inv (hh ▸ hi) hlown)
        have hilt2 : i < data.length - 1 := by
          have := get?_some_lt hr'
          omega
        refine ⟨r', ?_, ho'⟩
        rw [hchar i hilt2, if_neg hine]
        exact hr'
    · intro i r' hr'
      have hilt2 : i < data.length - 1 := by
        by_contra hh
        rw [hnone i (by omega)] at hr'
        exact absurd hr' (by simp)
      by_cases hie : i = index
      · subst hie
        have : lastr = r' := Option.some.inj (hmovedeq.symm.trans hr')
        subst this
        rw [mget_replace_self, hm1]
        rfl
      · rw [hchar i hilt2, if_neg hie] at hr'
        have h2 := inv.2 i r' hr'
        have hne : owner r' ≠ e := by
          intro hh
          rw [hh, hidx] at h2
          have := Option.some.inj h2
          omega
        have hnlast : owner r' ≠ owner lastr := by
          intro hh
          rw [hh, hlown] at h2
          have := Option.some.inj h2
          omega
        rw [mget_replace_ne _ _ hnlast, mget_mremove_ne _ hne]
        exact h2

/-- An arbitrary `HealthSystem` call that mutates the store. -/
inductive HOp where
  | add (e : Entity) (b : HealthBuilder)
  | remove (e : Entity)

/-- Runs a sequence of health add/remove calls. -/
def runHOps : List HOp → HealthSystem → Option HealthSystem
  | [], s => some s
  | HOp.add e b :: rest, s => runHOps rest (s.add_health_to_entity e b)
  | HOp.remove e :: rest, s =>
    match s.remove_health_from_entity e with
    | some s1 => runHOps rest s1
    | none => none

/-- An arbitrary `TransformationSystem` store-mutating call. -/
inductive TOp where
  | add (e : Entity) (b : TransformationBuilder)
  | remove (e : Entity)

/-- Runs a sequence of transformation add/remove calls. -/
def runTOps : List TOp → TransformationSystem → Option TransformationSystem
  | [], s => some s
  | TOp.add e b :: rest, s =>
    runTOps rest (s.add_transformation_to_entity e b)
  | TOp.remove e :: rest, s =>
    match s.remove_transformation_from_entity e with
    | some s1 => runTOps rest s1
    | none => none

theorem add_health_inv (s : HealthSystem) (e : Entity) (b : HealthBuilder)
    (inv : StoreInv HealthData.owner s.map s.data) :
    StoreInv HealthData.owner (s.add_health_to_entity e b).map
      (s.add_health_to_entity e b).data := by
  unfold HealthSystem.add_health_to_entity
  by_cases hnull : e ≠ Entity.null
  · rw [if_pos hnull]
    by_cases hhas : s.entity_has_health e
    · rw [if_pos hhas]
      exact inv
    · rw [if_neg hhas]
      have hnew : mget s.map e = none := by
        unfold HealthSystem.entity_has_health mcontains at hhas
        exact Option.not_isSome_iff_eq_none.mp (by simpa using hhas)
      exact storeInv_add inv hnew rfl
  · rw [if_neg hnull]
    exact inv

theorem remove_health_inv (s : HealthSystem) (e : Entity)
    (inv : StoreInv HealthData.owner s.map s.data) :
    ∃ s', s.remove_health_from_entity e = some s' ∧
      StoreInv HealthData.owner s'.map s'.data := by
  unfold HealthSystem.remove_health_from_entity
  by_cases hnull : e ≠ Entity.null
  · rw [if_pos hnull]
    cases hm : mget s.map e with
    | none => exact ⟨s, rfl, inv⟩
    | some index =>
      obtain ⟨r, hr, hro⟩ := inv.1 e index hm
      have hidx : index < s.data.length := get?_some_lt hr
      obtain ⟨data1, hsw⟩ : ∃ d, swapRemove s.data index = some d := by
        unfold swapRemove
        rw [dif_pos hidx]
        exact ⟨_, rfl⟩
      dsimp only
      rw [hsw]
      dsimp only
      have hcases := storeInv_remove_cases inv hm hsw
      obtain ⟨hilt, hlen1, hchar, hnone⟩ := swapRemove_some hsw
      by_cases hcond : data1.length ≠ 0 ∧ index ≠ data1.length
      · rw [if_pos hcond]
        obtain ⟨moved, hmoved, hmne, hsome, hinv2⟩ := hcases.2 hcond.2
        rw [hmoved]
        dsimp only
        unfold msetExisting
        rw [if_pos hsome]
        exact ⟨_, rfl, hinv2⟩
      · rw [if_neg hcond]
        have heq : index = data1.length := by
          by_cases hz : data1.length = 0
          · omega
          · by_contra hne2
            exact hcond ⟨hz, hne2⟩
        exact ⟨_, rfl, hcases.1 heq⟩
  · rw [if_neg hnull]
    exact ⟨s, rfl, inv⟩

theorem add_transformation_inv (s : TransformationSystem) (e : Entity)
    (b : TransformationBuilder)
    (inv : StoreInv TransformationData.owner s.map s.data) :
    StoreInv TransformationData.owner
      (s.add_transformation_to_entity e b).map
      (s.add_transformation_to_entity e b).data := by
  unfold TransformationSystem.add_transformation_to_entity
  by_cases hhas : s.entity_has_transformation e
  · rw [if_pos hhas]
    exact inv
  · rw [if_neg hhas]
    have hnew : mget s.map e = none := by
      unfold TransformationSystem.entity_has_transformation mcontains at hhas
      exact Option.not_isSome_iff_eq_none.mp (by simpa using hhas)
    exact storeInv_add inv hnew rfl

theorem remove_transformation_inv (s : TransformationSystem) (e : Entity)
    (inv : StoreInv TransformationData.owner s.map s.data) :
    ∃ s', s.remove_transformation_from_entity e = some s' ∧
      StoreInv TransformationData.owner s'.map s'.data := by
  unfold TransformationSystem.remove_transformation_from_entity
  by_cases hnull : e ≠ Entity.null
  · rw [if_pos hnull]
    cases hm : mget s.map e with
    | none => exact ⟨s, rfl, inv⟩
    | some index =>
      obtain ⟨r, hr, hro⟩ := inv.1 e index hm
      have hidx : index < s.data.length := get?_some_lt hr
      obtain ⟨data1, hsw⟩ : ∃ d, swapRemove s.data index = some d := by
        unfold swapRemove
        rw [dif_pos hidx]
        exact ⟨_, rfl⟩
      dsimp only
      rw [hsw]
      dsimp only
      have hcases := storeInv_remove_cases inv hm hsw
      obtain ⟨hilt, hlen1, hchar, hnone⟩ := swapRemove_some hsw
      by_cases hcond : data1.length ≠ 0 ∧ index ≠ data1.length
      · rw [if_pos hcond]
        obtain ⟨moved, hmoved, hmne, hsome, hinv2⟩ := hcases.2 hcond.2
        rw [hmoved]
        dsimp only
        unfold msetExisting
        rw [if_pos hsome]
        exact ⟨_, rfl, hinv2⟩
      · rw [if_neg hcond]
        have heq : index = data1.length := by
          by_cases hz : data1.length = 0
          · omega
          · by_contra hne2
            exact hcond ⟨hz, hne2⟩
        exact ⟨_, rfl, hcases.1 heq⟩
  · rw [if_neg hnull]
    exact ⟨s, rfl, inv⟩

theorem runHOps_inv (ops : List HOp) :
    ∀ s : HealthSystem, StoreInv HealthData.owner s.map s.data →
      ∃ s', runHOps ops s = some s' ∧
        StoreInv HealthData.owner s'.map s'.data := by
  induction ops with
  | nil => intro s inv; exact ⟨s, rfl, inv⟩
  | cons op rest ih =>
    intro s inv
    cases op with
    | add e b =>
      exact ih (s.add_health_to_entity e b) (add_health_inv s e b inv)
    | remove e =>
      obtain ⟨s1, hs1, inv1⟩ := remove_health_inv s e inv
      obtain ⟨s', hrun, inv'⟩ := ih s1 inv1
      refine ⟨s', ?_, inv'⟩
      rw [runHOps, hs1]
      exact hrun

theorem runTOps_inv (ops : List TOp) :
    ∀ s : TransformationSystem,
      StoreInv TransformationData.owner s.map s.data →
      ∃ s', runTOps ops s = some s' ∧
        StoreInv TransformationData.owner s'.map s'.data := by
  induction ops with
  | nil => intro s inv; exact ⟨s, rfl, inv⟩
  | cons op rest ih =>
    intro s inv
    cases op with
    | add e b =>
      exact ih (s.add_transformation_to_entity e b)
        (add_transformation_inv s e b inv)
    | remove e =>
      obtain ⟨s1, hs1, inv1⟩ := remove_transformation_inv s e inv
      obtain ⟨s', hrun, inv'⟩ := ih s1 inv1
      refine ⟨s', ?_, inv'⟩
      rw [runTOps, hs1]
      exact hrun

theorem storeInv_empty {α : Type _} (owner : α → Entity) :
    StoreInv owner [] [] := by
  constructor
  · intro e i hi
    exact absurd hi (by simp [mget])
  · intro i r hr
    exact absurd hr (by simp)

/-- C1.  Component store invariant and round trip, shown for the
health and transformation stores.  After any sequence of add/remove
calls starting from the empty store, no call panics and the two-sided
invariant holds: `map[e] = i` implies `data[i].owner = e` (and,
conversely, every dense record's owner maps back to its slot, so the
dense array has no gaps and no stale slots).  Concretely, adding
components for entities A, B, C and then removing B's leaves
`entity_has_X B` false, keeps A's record at slot 0, and repairs the
map entry of the moved record so that C still resolves to its original
data at slot 1. -/
theorem component_store_invariant :
    (∀ ops : List HOp, ∃ s, runHOps ops HealthSystem.new = some s ∧
        StoreInv HealthData.owner s.map s.data) ∧
    (∀ ops : List TOp, ∃ s, runTOps ops TransformationSystem.new = some s ∧
        StoreInv TransformationData.owner s.map s.data) ∧
    (runHOps
        [HOp.add ⟨1⟩ ⟨some (10, 10)⟩, HOp.add ⟨2⟩ ⟨some (20, 20)⟩,
         HOp.add ⟨3⟩ ⟨some (30, 30)⟩, HOp.remove ⟨2⟩] HealthSystem.new =
      some ⟨[(⟨1⟩, 0), (⟨3⟩, 1)],
        [⟨⟨1⟩, (10, 10)⟩, ⟨⟨3⟩, (30, 30)⟩]⟩ ∧
      HealthSystem.entity_has_health
        ⟨[(⟨1⟩, 0), (⟨3⟩, 1)], [⟨⟨1⟩, (10, 10)⟩, ⟨⟨3⟩, (30, 30)⟩]⟩ ⟨2⟩ =
        false) ∧
    (runTOps
        [TOp.add ⟨1⟩ (TransformationBuilder.new.at_position ⟨1, 0, 0⟩),
         TOp.add ⟨2⟩ (TransformationBuilder.new.at_position ⟨2, 0, 0⟩),
         TOp.add ⟨3⟩ (TransformationBuilder.new.at_position ⟨3, 0, 0⟩),
         TOp.remove ⟨2⟩] TransformationSystem.new =
      some ⟨[(⟨1⟩, 0), (⟨3⟩, 1)],
        [⟨⟨1⟩, ⟨1, 0, 0⟩, ⟨1, 1, 1⟩, Vec3.zero, Quat.identity⟩,
         ⟨⟨3⟩, ⟨3, 0, 0⟩, ⟨1, 1, 1⟩, Vec3.zero, Quat.identity⟩]⟩ ∧
      TransformationSystem.entity_has_transformation
        ⟨[(⟨1⟩, 0), (⟨3⟩, 1)],
          [⟨⟨1⟩, ⟨1, 0, 0⟩, ⟨1, 1, 1⟩, Vec3.zero, Quat.identity⟩,
           ⟨⟨3⟩, ⟨3, 0, 0⟩, ⟨1, 1, 1⟩, Vec3.zero, Quat.identity⟩]⟩ ⟨2⟩ =
        false) := by
  refine ⟨?_, ?_, by decide, by decide⟩
  · intro ops
    exact runHOps_inv ops HealthSystem.new (storeInv_empty _)
  · intro ops
    exact runTOps_inv ops TransformationSystem.new (storeInv_empty _)

/-! ## C5: HealthSystem::update, heal/harm/kill -/

/-- The per-record clamp of `HealthSystem::update`: current hitpoints
above max are pulled down to max; other records are untouched. -/
def clampRecord (r : HealthData) : HealthData :=
  if r.hitpoints.1 > r.hitpoints.2 then
    { r with hitpoints := (r.hitpoints.2, r.hitpoints.2) }
  else r

/-- A record that reaches the destroy branch of
`HealthSystem::update`: not clamped this pass (`current <= max`) and
`current <= 0`. -/
def isVictim (r : HealthData) : Bool :=
  decide (r.hitpoints.1 ≤ r.hitpoints.2 ∧ r.hitpoints.1 ≤ 0)

theorem healthUpdateGo_spec :
    ∀ (data : List HealthData) (em : EntityManager)
      (out : List HealthData × EntityManager),
      healthUpdateGo data em = some out →
      out.1 = data.map clampRecord ∧
      runEMOps ((data.filter isVictim).map (fun r => EOp.destroy r.owner))
        em = some out.2 := by
  intro data
  induction data with
  | nil =>
    intro em out h
    have : ([], em) = out := Option.some.inj (by simpa [healthUpdateGo] using h)
    subst this
    exact ⟨rfl, rfl⟩
  | cons r rest ih =>
    intro em out h
    rw [healthUpdateGo] at h
    by_cases h1 : r.hitpoints.1 > r.hitpoints.2
    · rw [if_pos h1] at h
      cases hgo : healthUpdateGo rest em with
      | none => rw [hgo] at h; exact absurd h (by simp)
      | some p =>
        obtain ⟨rest1, em1⟩ := p
        rw [hgo] at h
        dsimp only at h
        have hout := (Option.some.inj h).symm
        subst hout
        obtain ⟨ha, hb⟩ := ih em (rest1, em1) hgo
        constructor
        · dsimp only
          rw [List.map_cons, ← ha, clampRecord, if_pos h1]
        · have hv : isVictim r = false := by
            unfold isVictim
            simp only [decide_eq_false_iff_not]
            intro hc
            exact absurd h1 (by push_neg; exact hc.1)
          rw [List.filter_cons_of_neg (by simp [hv])]
          exact hb
    · rw [if_neg h1] at h
      by_cases h2 : r.hitpoints.1 ≤ 0
      · rw [if_pos h2] at h
        cases hd : em.destroy_entity r.owner with
        | none => rw [hd] at h; exact absurd h (by simp)
        | some em1 =>
          rw [hd] at h
          dsimp only at h
          cases hgo : healthUpdateGo rest em1 with
          | none => rw [hgo] at h; exact absurd h (by simp)
          | some p =>
            obtain ⟨rest1, em2⟩ := p
            rw [hgo] at h
            dsimp only at h
            have hout := (Option.some.inj h).symm
            subst hout
            obtain ⟨ha, hb⟩ := ih em1 (rest1, em2) hgo
            constructor
            · dsimp only
              rw [List.map_cons, ← ha, clampRecord, if_neg h1]
            · have hv : isVictim r = true := by
                unfold isVictim
                simp only [decide_eq_true_eq]
                exact ⟨by push_neg at h1; exact h1, h2⟩
              rw [List.filter_cons_of_pos (by simp [hv]), List.map_cons,
                runEMOps, hd]
              exact hb
      · rw [if_neg h2] at h
        cases hgo : healthUpdateGo rest em with
        | none => rw [hgo] at h; exact absurd h (by simp)
        | some p =>
          obtain ⟨rest1, em1⟩ := p
          rw [hgo] at h
          dsimp only at h
          have hout := (Option.some.inj h).symm
          subst hout
          obtain ⟨ha, hb⟩ := ih em (rest1, em1) hgo
          constructor
          · dsimp only
            rw [List.map_cons, ← ha, clampRecord, if_neg h1]
          · have hv : isVictim r = false := by
              unfold isVictim
              simp only [decide_eq_false_iff_not]
              intro hc
              exact h2 hc.2
            rw [List.filter_cons_of_neg (by simp [hv])]
            exact hb

theorem map_owner_set {l : List HealthData} {i : ℕ} {r r' : HealthData}
    (hget : l.get? i = some r) (hown : r'.owner = r.owner) :
    (l.set i r').map HealthData.owner = l.map HealthData.owner := by
  apply List.ext_get?
  intro n
  by_cases hn : n = i
  · subst hn
    rw [List.get?_map, List.get?_map,
      List.get?_set_eq_of_lt _ (get?_some_lt hget), hget]
    simp [hown]
  · rw [List.get?_map, List.get?_map,
      List.get?_set_ne _ _ (fun hh => hn hh.symm)]

/-- Counterexample to C5 as frozen: the record `(current, max) =
(-1, -2)` has `current ≤ 0`, yet `HealthSystem::update` does not
destroy its owner — the `else if` gives the clamp branch precedence
(`current > max`), so the entity is still alive afterwards and the
record was clamped to `(-2, -2)`. -/
theorem health_update_claim_counterexample :
    HealthSystem.update ⟨[(⟨1⟩, 0)], [⟨⟨1⟩, (-1, -2)⟩]⟩
        ⟨[0, 0], [true, true], []⟩ =
      some (⟨[(⟨1⟩, 0)], [⟨⟨1⟩, (-2, -2)⟩]⟩, ⟨[0, 0], [true, true], []⟩) ∧
    ((-1 : ℚ) ≤ 0) ∧
    EntityManager.entity_is_alive ⟨[0, 0], [true, true], []⟩ ⟨1⟩ =
      some true := by
  refine ⟨by decide, by norm_num, by decide⟩

/-- C5 (amended).  `HealthSystem::update` maps every record through
the clamp-then-destroy pass: current hitpoints exceeding max are
clamped to max, and an entity is destroyed via
`EntityManager::destroy_entity` exactly for the records with
`current ≤ max` and `current ≤ 0` — clamping takes precedence, so a
record with `max < current ≤ 0` is clamped, not destroyed, this call.
`heal`, `harm`, and `kill_entity` never destroy an entity themselves
(they take no `EntityManager` and preserve the map and every record's
owner); `kill_entity` only sets current hitpoints to `f32::MIN`, which
takes effect on the next `update` call. -/
theorem health_update_spec :
    (∀ (hs : HealthSystem) (em : EntityManager)
        (hs' : HealthSystem) (em' : EntityManager),
      hs.update em = some (hs', em') →
        hs'.map = hs.map ∧
        hs'.data = hs.data.map clampRecord ∧
        runEMOps ((hs.data.filter isVictim).map
          (fun r => EOp.destroy r.owner)) em = some em') ∧
    (∀ (hs : HealthSystem) (e : Entity) (a : ℚ) (hs' : HealthSystem),
      hs.harm e a = some hs' →
        hs'.map = hs.map ∧
        hs'.data.map HealthData.owner = hs.data.map HealthData.owner) ∧
    (∀ (hs : HealthSystem) (e : Entity) (a : ℚ) (hs' : HealthSystem),
      hs.heal e a = some hs' →
        hs'.map = hs.map ∧
        hs'.data.map HealthData.owner = hs.data.map HealthData.owner) ∧
    (∀ (hs : HealthSystem) (e : Entity) (hs' : HealthSystem),
      hs.kill_entity e = some hs' →
        hs'.map = hs.map ∧
        hs'.data.map HealthData.owner = hs.data.map HealthData.owner ∧
        (∀ i r, e ≠ Entity.null → mget hs.map e = some i →
          hs.data.get? i = some r →
          hs'.data.get? i = some ⟨r.owner, (f32MIN, r.hitpoints.2)⟩)) := by
  refine ⟨?_, ?_, ?_, ?_⟩
  · intro hs em hs' em' h
    unfold HealthSystem.update at h
    cases hgo : healthUpdateGo hs.data em with
    | none => rw [hgo] at h; exact absurd h (by simp)
    | some p =>
      obtain ⟨data1, em1⟩ := p
      rw [hgo] at h
      dsimp only at h
      have := Option.some.inj h
      injection this with h1 h2
      obtain ⟨ha, hb⟩ := healthUpdateGo_spec hs.data em (data1, em1) hgo
      subst h2
      refine ⟨by rw [← h1], by rw [← h1]; exact ha, hb⟩
  · intro hs e a hs' h
    unfold HealthSystem.harm at h
    by_cases hnull : e ≠ Entity.null
    · rw [if_pos hnull] at h
      cases hm : mget hs.map e with
      | none =>
        rw [hm] at h
        have := (Option.some.inj h).symm
        subst this
        exact ⟨rfl, rfl⟩
      | some i =>
        rw [hm] at h
        dsimp only at h
        cases hg : hs.data.get? i with
        | none => rw [hg] at h; exact absurd h (by simp)
        | some r =>
          rw [hg] at h
          dsimp only at h
          have := (Option.some.inj h).symm
          subst this
          exact ⟨rfl, map_owner_set hg rfl⟩
    · rw [if_neg hnull] at h
      have := (Option.some.inj h).symm
      subst this
      exact ⟨rfl, rfl⟩
  · intro hs e a hs' h
    unfold HealthSystem.heal at h
    by_cases hnull : e ≠ Entity.null
    · rw [if_pos hnull] at h
      cases hm : mget hs.map e with
      | none =>
        rw [hm] at h
        have := (Option.some.inj h).symm
        subst this
        exact ⟨rfl, rfl⟩
      | some i =>
        rw [hm] at h
        dsimp only at h
        cases hg : hs.data.get? i with
        | none => rw [hg] at h; exact absurd h (by simp)
        | some r =>
          rw [hg] at h
          dsimp only at h
          have := (Option.some.inj h).symm
          subst this
          exact ⟨rfl, map_owner_set hg rfl⟩
    · rw [if_neg hnull] at h
      have := (Option.some.inj h).symm
      subst this
      exact ⟨rfl, rfl⟩
  · intro hs e hs' h
    unfold HealthSystem.kill_entity at h
    by_cases hnull : e ≠ Entity.null
    · rw [if_pos hnull] at h
      cases hm : mget hs.map e with
      | none =>
        rw [hm] at h
        have := (Option.some.inj h).symm
        subst this
        refine ⟨rfl, rfl, ?_⟩
        intro i r _ hmi
        exact absurd hmi (by simp)
      | some i =>
        rw [hm] at h
        dsimp only at h
        cases hg : hs.data.get? i with
        | none => rw [hg] at h; exact absurd h (by simp)
        | some r =>
          rw [hg] at h
          dsimp only at h
          have := (Option.some.inj h).symm
          subst this
          refine ⟨rfl, map_owner_set hg rfl, ?_⟩
          intro i' r' _ hmi hgi
          have hii : i = i' := Option.some.inj hmi
          subst hii
          rw [hg] at hgi
          have hrr : r = r' := Option.some.inj hgi
          subst hrr
          show (hs.data.set i _).get? i = _
          rw [List.get?_set_eq_of_lt _ (get?_some_lt hg)]
    · rw [if_neg hnull] at h
      have := (Option.some.inj h).symm
      subst this
      refine ⟨rfl, rfl, ?_⟩
      intro i r hnn _ _
      exact absurd (not_not.mp hnull) hnn

/-- Witness for the amended C5: a record over max is clamped and no
entity is destroyed; `kill_entity` writes `f32::MIN`. -/
theorem health_update_spec_witness :
    (HealthSystem.mk [(⟨1⟩, 0)] [⟨⟨1⟩, (3, 3)⟩]).map =
        (HealthSystem.mk [(⟨1⟩, 0)] [⟨⟨1⟩, (5, 3)⟩]).map ∧
    (HealthSystem.mk [(⟨1⟩, 0)] [⟨⟨1⟩, (3, 3)⟩]).data =
        (HealthSystem.mk [(⟨1⟩, 0)] [⟨⟨1⟩, (5, 3)⟩]).data.map clampRecord ∧
    (HealthSystem.mk [(⟨1⟩, 0)] [⟨⟨1⟩, (f32MIN, 3)⟩]).data.get? 0 =
        some ⟨⟨1⟩, (f32MIN, 3)⟩ := by
  have h1 := health_update_spec.1
    ⟨[(⟨1⟩, 0)], [⟨⟨1⟩, (5, 3)⟩]⟩ ⟨[0, 0], [true, true], []⟩
    ⟨[(⟨1⟩, 0)], [⟨⟨1⟩, (3, 3)⟩]⟩ ⟨[0, 0], [true, true], []⟩ (by decide)
  have h2 := health_update_spec.2.2.2
    ⟨[(⟨1⟩, 0)], [⟨⟨1⟩, (7, 3)⟩]⟩ ⟨1⟩
    ⟨[(⟨1⟩, 0)], [⟨⟨1⟩, (f32MIN, 3)⟩]⟩ (by rfl)
  exact ⟨h1.1, h1.2.1, h2.2.2 0 ⟨⟨1⟩, (7, 3)⟩ (by decide) (by decide)
    (by decide)⟩

/-! ## C7: integration step (update_colliders) -/

/-- The velocity after the gravity step of `update_colliders`: bodies
with nonzero inverse mass that are not gravity-immune gain
`gravity * timer.1`; static or gravity-immune bodies keep their
velocity. -/
def integratedVelocity (s : RigidBodySystem) (b : RigidBody) : Vec3 :=
  if b.inv_mass > 0 ∧ b.gravity_immune = false then
    b.velocity + s.gravity * s.timer1
  else b.velocity

/-- A body after one `update_colliders` visit: velocity integrated,
locomotion zeroed, foothold cleared. -/
def integrateBody (s : RigidBodySystem) (b : RigidBody) : RigidBody :=
  { b with
      velocity := integratedVelocity s b,
      locomotion := Vec3.zero,
      foothold := false }

/-- No two rigid bodies share an owner (guaranteed by the add-path of
the store, which refuses double-adds). -/
def OwnersDistinct (l : List RigidBody) : Prop :=
  ∀ i j (bi bj : RigidBody), i ≠ j → l.get? i = some bi →
    l.get? j = some bj → bi.owner ≠ bj.owner

theorem ownersDistinct_set {l : List RigidBody} {k : ℕ} {b b1 : RigidBody}
    (hk : l.get? k = some b) (hown : b1.owner = b.owner)
    (hnd : OwnersDistinct l) : OwnersDistinct (l.set k b1) := by
  intro i j bi bj hij hi hj
  by_cases hik : i = k
  · subst hik
    rw [List.get?_set_eq_of_lt _ (get?_some_lt hk)] at hi
    have hbi : b1 = bi := Option.some.inj hi
    subst hbi
    rw [List.get?_set_ne _ _ hij] at hj
    rw [hown]
    exact hnd i j b bj hij hk hj
  · rw [List.get?_set_ne _ _ (fun hh : k = i => hik hh.symm)] at hi
    by_cases hjk : j = k
    · subst hjk
      rw [List.get?_set_eq_of_lt _ (get?_some_lt hk)] at hj
      have hbj : b1 = bj := Option.some.inj hj
      subst hbj
      rw [hown]
      exact hnd i j bi b hij hi hk
    · rw [List.get?_set_ne _ _ (fun hh : k = j => hjk hh.symm)] at hj
      exact hnd i j bi bj hij hi hj

/-- What `modifyPosition` (a `get_position_mut` read-modify-write)
does: the map is untouched, the invariant survives, the target
entity's position becomes `f position`, all other entities keep their
positions. -/
theorem modifyPosition_char {ts ts1 : TransformationSystem} {e : Entity}
    {f : Vec3 → Vec3}
    (inv : StoreInv TransformationData.owner ts.map ts.data)
    (h : ts.modifyPosition e f = some ts1) :
    ts1.map = ts.map ∧
    StoreInv TransformationData.owner ts1.map ts1.data ∧
    (∀ p, ts.get_position e = some p → ts1.get_position e = some (f p)) ∧
    (∀ e', e' ≠ e → ts1.get_position e' = ts.get_position e') := by
  unfold TransformationSystem.modifyPosition at h
  cases hm : mget ts.map e with
  | none => rw [hm] at h; exact absurd h (by simp)
  | some i =>
    rw [hm] at h
    dsimp only at h
    cases hg : ts.data.get? i with
    | none => rw [hg] at h; exact absurd h (by simp)
    | some r =>
      rw [hg] at h
      dsimp only at h
      have hts1 := (Option.some.inj h).symm
      subst hts1
      have howner : r.owner = e := by
        obtain ⟨r', hr', ho'⟩ := inv.1 e i hm
        have : r = r' := Option.some.inj (hg.symm.trans hr')
        rw [this]
        exact ho'
      refine ⟨rfl, ⟨?_, ?_⟩, ?_, ?_⟩
      · intro e' j hj
        obtain ⟨r', hr', ho'⟩ := inv.1 e' j hj
        by_cases hji : j = i
        · subst hji
          have hrow : TransformationData.owner r = e' := by
            rw [show r = r' from Option.some.inj (hg.symm.trans hr')]
            exact ho'
          exact ⟨_, List.get?_set_eq_of_lt _ (get?_some_lt hg), hrow⟩
        · exact ⟨r', by
            rw [List.get?_set_ne _ _ (fun hh => hji hh.symm)]
            exact hr', ho'⟩
      · intro j r' hr'
        by_cases hji : j = i
        · subst hji
          rw [List.get?_set_eq_of_lt _ (get?_some_lt hg)] at hr'
          have : _ = r' := Option.some.inj hr'
          subst this
          show mget ts.map r.owner = some j
          exact inv.2 j r hg
        · rw [List.get?_set_ne _ _ (fun hh => hji hh.symm)] at hr'
          exact inv.2 j r' hr'
      · intro p hp
        unfold TransformationSystem.get_position at hp ⊢
        rw [hm] at hp ⊢
        dsimp only at hp ⊢
        rw [List.get?_set_eq_of_lt _ (get?_some_lt hg)]
        rw [hg] at hp
        have : r.position = p := by simpa using hp
        simp [← this]
      · intro e' he'
        unfold TransformationSystem.get_position
        cases hm' : mget ts.map e' with
        | none => rfl
        | some j =>
          dsimp only
          have hji : j ≠ i := by
            intro hh
            subst hh
            exact he' (store_functional inv hm' hm)
          rw [List.get?_set_ne _ _ (fun hh => hji hh.symm)]

/-- The loop of `update_colliders` over `[first, last)`, characterised
against the state at loop entry. -/
theorem update_colliders_go :
    ∀ (n first last : ℕ) (s : RigidBodySystem)
      (ts : TransformationSystem) (s' : RigidBodySystem)
      (ts' : TransformationSystem),
      n = last - first →
      last ≤ s.rigid_bodies.length →
      StoreInv TransformationData.owner ts.map ts.data →
      OwnersDistinct s.rigid_bodies →
      s.update_colliders first last ts = some (s', ts') →
      ((∀ i, (i < first ∨ last ≤ i) →
          s'.rigid_bodies.get? i = s.rigid_bodies.get? i) ∧
       (∀ i bi, first ≤ i → i < last → s.rigid_bodies.get? i = some bi →
          s'.rigid_bodies.get? i = some (integrateBody s bi) ∧
          (∀ p, ts.get_position bi.owner = some p →
            ts'.get_position bi.owner =
              some (p + (integratedVelocity s bi + bi.locomotion) * s.timer1))) ∧
       (∀ e, (∀ i bi, first ≤ i → i < last →
            s.rigid_bodies.get? i = some bi → bi.owner ≠ e) →
          ts'.get_position e = ts.get_position e) ∧
       s'.map = s.map ∧ s'.timer0 = s.timer0 ∧ s'.timer1 = s.timer1 ∧
       s'.gravity = s.gravity ∧
       s'.rigid_bodies.length = s.rigid_bodies.length ∧
       StoreInv TransformationData.owner ts'.map ts'.data) := by
  intro n
  induction n with
  | zero =>
    intro first last s ts s' ts' hn hlast hinv hnd hrun
    have hge : ¬first < last := by omega
    unfold RigidBodySystem.update_colliders at hrun
    rw [if_neg hge] at hrun
    have := Option.some.inj hrun
    injection this with h1 h2
    subst h1
    subst h2
    refine ⟨fun i _ => rfl, fun i bi h1 h2 _ => absurd (by omega : first < last) hge,
      fun e _ => rfl, rfl, rfl, rfl, rfl, rfl, hinv⟩
  | succ n ih =>
    intro first last s ts s' ts' hn hlast hinv hnd hrun
    have hfl : first < last := by omega
    unfold RigidBodySystem.update_colliders at hrun
    rw [if_pos hfl] at hrun
    cases hb : s.rigid_bodies.get? first with
    | none => rw [hb] at hrun; exact absurd hrun (by simp)
    | some collider =>
      rw [hb] at hrun
      dsimp only at hrun
      cases hmp : ts.modifyPosition collider.owner
          (fun p => p + ((if collider.inv_mass > 0 ∧
            collider.gravity_immune = false then
            collider.velocity + s.gravity * s.timer1
          else collider.velocity) + collider.locomotion) * s.timer1) with
      | none => rw [hmp] at hrun; exact absurd hrun (by simp)
      | some ts1 =>
        rw [hmp] at hrun
        dsimp only at hrun
        obtain ⟨hmap1, hinv1, hself, hother⟩ := modifyPosition_char hinv hmp
        have hlen := get?_some_lt hb
        have hnd1 : OwnersDistinct (s.rigid_bodies.set first
            (integrateBody s collider)) :=
          ownersDistinct_set hb rfl hnd
        have ih2 := ih (first + 1) last
          { s with rigid_bodies := s.rigid_bodies.set first (integrateBody s collider) }
          ts1 s' ts' (by omega) (by simpa using hlast) hinv1 hnd1 hrun
        obtain ⟨iha, ihb, ihc, ihmap, iht0, iht1, ihg, ihlen, ihinv⟩ := ih2
        have hget1 : ∀ i, i ≠ first →
            (s.rigid_bodies.set first (integrateBody s collider)).get? i =
              s.rigid_bodies.get? i := by
          intro i hi
          exact List.get?_set_ne _ _ (fun hh => hi hh.symm)
        refine ⟨?_, ?_, ?_, ihmap, iht0, iht1, ihg, by simpa using ihlen, ihinv⟩
        · intro i hi
          rw [iha i (by omega), hget1 i (by omega)]
        · intro i bi h1 h2 hbi
          by_cases hif : i = first
          · subst hif
            have hbc : collider = bi := Option.some.inj (hb.symm.trans hbi)
            subst hbc
            constructor
            · rw [iha i (by omega),
                List.get?_set_eq_of_lt _ hlen]
            · intro p hp
              have hts1pos := hself p hp
              have hothers : ∀ j bj, i + 1 ≤ j → j < last →
                  (s.rigid_bodies.set i (integrateBody s collider)).get? j =
                    some bj → bj.owner ≠ collider.owner := by
                intro j bj hj1 hj2 hbj
                rw [hget1 j (by omega)] at hbj
                exact hnd j i bj collider (by omega) hbj hb
              rw [ihc collider.owner hothers, hts1pos]
              rfl
          · have hbi' : (s.rigid_bodies.set first
                (integrateBody s collider)).get? i = some bi := by
              rw [hget1 i hif]
              exact hbi
            obtain ⟨ihb1, ihb2⟩ := ihb i bi (by omega) h2 hbi'
            constructor
            · rw [ihb1]
              rfl
            · intro p hp
              have hne : bi.owner ≠ collider.owner :=
                hnd i first bi collider hif hbi hb
              have hp1 : ts1.get_position bi.owner = some p := by
                rw [hother bi.owner hne]
                exact hp
              have := ihb2 p hp1
              rw [this]
              rfl
        · intro e he
          have he1 : ∀ i bi, first + 1 ≤ i → i < last →
              (s.rigid_bodies.set first (integrateBody s collider)).get? i =
                some bi → bi.owner ≠ e := by
            intro i bi h1 h2 hbi
            rw [hget1 i (by omega)] at hbi
            exact he i bi (by omega) h2 hbi
          rw [ihc e he1, hother e (he first collider (by omega) hfl hb).symm]

/-- C7.  Integration step: when `update_colliders(0, len, ts)`
succeeds, every body with positive inverse mass that is not gravity
immune has gravity scaled by the fixed step added to its velocity
(static and gravity-immune bodies keep theirs); every body's transform
position then advances by `(velocity + locomotion) * timer.1` using
the freshly integrated velocity, and its locomotion and foothold are
reset to zero/false.  The constructor fixes
`gravity = (0, -9.82, 0)` and `timer.1 = 1/60`. -/
theorem update_colliders_spec :
    (∀ (s : RigidBodySystem) (ts : TransformationSystem)
        (s' : RigidBodySystem) (ts' : TransformationSystem),
      StoreInv TransformationData.owner ts.map ts.data →
      OwnersDistinct s.rigid_bodies →
      s.update_colliders 0 s.rigid_bodies.length ts = some (s', ts') →
      ∀ i bi, s.rigid_bodies.get? i = some bi →
        s'.rigid_bodies.get? i = some
          { bi with
            velocity := if bi.inv_mass > 0 ∧ bi.gravity_immune = false then
                bi.velocity + s.gravity * s.timer1
              else bi.velocity,
            locomotion := Vec3.zero, foothold := false } ∧
        (∀ p, ts.get_position bi.owner = some p →
          ts'.get_position bi.owner = some
            (p + ((if bi.inv_mass > 0 ∧ bi.gravity_immune = false then
                bi.velocity + s.gravity * s.timer1
              else bi.velocity) + bi.locomotion) * s.timer1))) ∧
    RigidBodySystem.new.gravity = ⟨0, -982 / 100, 0⟩ ∧
    RigidBodySystem.new.timer1 = 1 / 60 := by
  refine ⟨?_, rfl, rfl⟩
  intro s ts s' ts' hinv hnd hrun i bi hbi
  have h := update_colliders_go (s.rigid_bodies.length - 0) 0
    s.rigid_bodies.length s ts s' ts' rfl (by omega) hinv hnd hrun
  exact h.2.1 i bi (by omega) (get?_some_lt hbi) hbi

theorem storeInv_singleton {α : Type _} {owner : α → Entity} {e : Entity}
    {r : α} (h : owner r = e) : StoreInv owner [(e, 0)] [r] := by
  constructor
  · intro e' i hi
    unfold mget at hi
    by_cases he : e = e'
    · rw [if_pos he] at hi
      have : 0 = i := Option.some.inj hi
      subst this
      exact ⟨r, rfl, by rw [h, he]⟩
    · rw [if_neg he] at hi
      exact absurd hi (by simp [mget])
  · intro i r' hr'
    cases i with
    | zero =>
      have hrr : r = r' := Option.some.inj hr'
      subst hrr
      show mget [(e, 0)] (owner r) = some 0
      rw [h]
      simp [mget]
    | succ n => exact absurd hr' (by simp)

theorem ownersDistinct_singleton (b : RigidBody) : OwnersDistinct [b] := by
  intro i j bi bj hij hi hj
  have hi0 : i = 0 := by
    by_contra hh
    rw [List.get?_eq_none.mpr (by simp; omega)] at hi
    exact absurd hi (by simp)
  have hj0 : j = 0 := by
    by_contra hh
    rw [List.get?_eq_none.mpr (by simp; omega)] at hj
    exact absurd hj (by simp)
  exact absurd (hi0.trans hj0.symm) hij

/-- Concrete inputs for the C7 witness: a unit-mass body with
locomotion `(6,0,0)` and a raised foothold flag, at position
`(0,5,0)`, under the constructor's gravity and fixed step. -/
def c7Body : RigidBody :=
  ⟨⟨1⟩, Vec3.zero, ⟨1, 1, 1⟩, Vec3.zero, ⟨6, 0, 0⟩, 0, 1, false, true, 0, false⟩

def c7Sys : RigidBodySystem :=
  ⟨0, 1 / 60, ⟨0, -982 / 100, 0⟩, [(⟨1⟩, 0)], [c7Body]⟩

def c7Ts : TransformationSystem :=
  ⟨[(⟨1⟩, 0)], [⟨⟨1⟩, ⟨0, 5, 0⟩, ⟨1, 1, 1⟩, Vec3.zero, Quat.identity⟩]⟩

def c7SysAfter : RigidBodySystem :=
  ⟨0, 1 / 60, ⟨0, -982 / 100, 0⟩, [(⟨1⟩, 0)],
    [⟨⟨1⟩, Vec3.zero, ⟨1, 1, 1⟩, ⟨0, -491 / 3000, 0⟩, Vec3.zero, 0, 1,
      false, false, 0, false⟩]⟩

def c7TsAfter : TransformationSystem :=
  ⟨[(⟨1⟩, 0)],
    [⟨⟨1⟩, ⟨1 / 10, 899509 / 180000, 0⟩, ⟨1, 1, 1⟩, Vec3.zero, Quat.identity⟩]⟩

/-- Witness for C7: on the concrete one-body system the integration
step runs without panic, gravity-integrates the velocity, clears
locomotion and foothold, and advances the position by
`(velocity + locomotion) * 1/60`. -/
theorem update_colliders_spec_witness :
    c7Sys.update_colliders 0 1 c7Ts = some (c7SysAfter, c7TsAfter) ∧
    c7SysAfter.rigid_bodies.get? 0 = some
      { c7Body with
          velocity := if c7Body.inv_mass > 0 ∧ c7Body.gravity_immune = false
            then c7Body.velocity + c7Sys.gravity * c7Sys.timer1
            else c7Body.velocity,
          locomotion := Vec3.zero,
          foothold := false } ∧
    c7TsAfter.get_position c7Body.owner = some
      ((⟨0, 5, 0⟩ : Vec3) +
        ((if c7Body.inv_mass > 0 ∧ c7Body.gravity_immune = false
            then c7Body.velocity + c7Sys.gravity * c7Sys.timer1
            else c7Body.velocity) + c7Body.locomotion) * c7Sys.timer1) := by
  have hrun : c7Sys.update_colliders 0 1 c7Ts = some (c7SysAfter, c7TsAfter) := by
    simp only [c7Sys, c7Ts, c7Body, c7SysAfter, c7TsAfter,
      RigidBodySystem.update_colliders, TransformationSystem.modifyPosition,
      mget, Vec3.zero, Vec3.add_def, Vec3.smul_def, List.get?]
    norm_num
  have hrun' : c7Sys.update_colliders 0 c7Sys.rigid_bodies.length c7Ts =
      some (c7SysAfter, c7TsAfter) := hrun
  have h := update_colliders_spec.1 c7Sys c7Ts c7SysAfter c7TsAfter
    (storeInv_singleton rfl) (ownersDistinct_singleton c7Body)
    hrun' 0 c7Body rfl
  exact ⟨hrun, h.1, h.2 ⟨0, 5, 0⟩ rfl⟩

/-! ## C4: the separating-velocity skip in collision resolution -/

/-- Concrete colliding pair for C4: two unit-mass AABBs with half
extents 1 at x-distance 1.5 (penetration 0.5), both at rest, the
second dealing contact damage 1, the first carrying health. -/
def c4BodyA : RigidBody :=
  ⟨⟨1⟩, Vec3.zero, ⟨1, 1, 1⟩, Vec3.zero, Vec3.zero, 0, 1, false, false, 0, false⟩

def c4BodyB : RigidBody :=
  ⟨⟨2⟩, Vec3.zero, ⟨1, 1, 1⟩, Vec3.zero, Vec3.zero, 0, 1, false, false, 1, false⟩

def c4Sys : RigidBodySystem :=
  ⟨0, 1 / 60, ⟨0, -982 / 100, 0⟩, [(⟨1⟩, 0), (⟨2⟩, 1)], [c4BodyA, c4BodyB]⟩

def c4Ts : TransformationSystem :=
  ⟨[(⟨1⟩, 0), (⟨2⟩, 1)],
    [⟨⟨1⟩, ⟨0, 0, 0⟩, ⟨1, 1, 1⟩, Vec3.zero, Quat.identity⟩,
     ⟨⟨2⟩, ⟨3 / 2, 0, 0⟩, ⟨1, 1, 1⟩, Vec3.zero, Quat.identity⟩]⟩

def c4Hs : HealthSystem := ⟨[(⟨1⟩, 0)], [⟨⟨1⟩, (10, 10)⟩]⟩

def c4TsAfter : TransformationSystem :=
  ⟨[(⟨1⟩, 0), (⟨2⟩, 1)],
    [⟨⟨1⟩, ⟨-1 / 4, 0, 0⟩, ⟨1, 1, 1⟩, Vec3.zero, Quat.identity⟩,
     ⟨⟨2⟩, ⟨7 / 4, 0, 0⟩, ⟨1, 1, 1⟩, Vec3.zero, Quat.identity⟩]⟩

def c4HsAfter : HealthSystem := ⟨[(⟨1⟩, 0)], [⟨⟨1⟩, (9, 10)⟩]⟩

/-- Counterexample to C4 as frozen: a detected colliding pair whose
relative velocity along the normal is exactly zero (resting, hence
non-negative) is NOT skipped — the source's `continue` fires only for
strictly positive `rv·normal`.  At this input the pair-resolution body
applies the positional correction (owner 1's position moves from 0 to
-1/4) and dispatches contact damage (owner 1's hitpoints drop 10 → 9),
contradicting the claim that no correction and no damage happen when
`rv·normal ≥ 0`. -/
theorem impulse_skip_claim_counterexample :
    c4BodyA.colliding c4BodyB (⟨0, 0, 0⟩, ⟨3 / 2, 0, 0⟩ + c4BodyB.offset) =
      some ⟨1 / 2, ⟨1, 0, 0⟩⟩ ∧
    c4Ts.get_position c4BodyB.owner = some ⟨3 / 2, 0, 0⟩ ∧
    (c4BodyB.velocity - c4BodyA.velocity).dot ⟨1, 0, 0⟩ = 0 ∧
    resolvePair c4Sys c4Ts c4Hs 0 1 ⟨0, 0, 0⟩ =
      some (c4Sys, c4TsAfter, c4HsAfter) ∧
    c4Ts.get_position ⟨1⟩ = some ⟨0, 0, 0⟩ ∧
    c4TsAfter.get_position ⟨1⟩ = some ⟨-1 / 4, 0, 0⟩ ∧
    c4Hs.data.get? 0 = some ⟨⟨1⟩, (10, 10)⟩ ∧
    c4HsAfter.data.get? 0 = some ⟨⟨1⟩, (9, 10)⟩ := by
  refine ⟨?_, rfl, ?_, ?_, rfl, rfl, rfl, rfl⟩
  · simp only [c4BodyA, c4BodyB, RigidBody.colliding, Vec3.zero,
      Vec3.add_def, Vec3.sub_def]
    norm_num [abs_of_nonneg]
  · simp only [c4BodyA, c4BodyB, Vec3.zero, Vec3.sub_def, Vec3.dot]
    norm_num
  · simp only [resolvePair, c4Sys, c4Ts, c4Hs, c4BodyA, c4BodyB, c4TsAfter,
      c4HsAfter, RigidBody.colliding, TransformationSystem.get_position,
      TransformationSystem.modifyPosition, HealthSystem.entity_has_health,
      HealthSystem.harm, HealthSystem.kill_entity, healthCollisionStep,
      mcontains, mget, modifyBody,
      Vec3.zero, Vec3.add_def, Vec3.sub_def, Vec3.smul_def, Vec3.dot,
      List.get?]
    norm_num [abs_of_nonneg, mget, modifyBody, List.get?, healthCollisionStep,
      HealthSystem.entity_has_health, HealthSystem.harm, mcontains,
      Entity.null, Entity.mk.injEq, Vec3.add_def, Vec3.sub_def, Vec3.smul_def]

/-- C4 (amended).  Inside `RigidBodySystem::update`, a detected
colliding pair is skipped with no impulse only when the relative
velocity along the manifold normal is strictly positive (separating):
then the transformation and health systems are returned untouched (no
positional correction, no damage or die-on-collision dispatch) and no
body's velocity changes — only the foothold flags, which the source
sets before the separating-velocity check, may differ.  At exactly
zero relative normal velocity (resting) the pair is NOT skipped: the
impulse is numerically zero but positional correction and damage still
run (see the counterexample). -/
theorem impulse_skip_spec :
    ∀ (s : RigidBodySystem) (ts : TransformationSystem) (hs : HealthSystem)
      (i j : ℕ) (pos1 : Vec3) (bi bj : RigidBody) (pj : Vec3)
      (m : CollisionManifold),
      s.rigid_bodies.get? i = some bi →
      s.rigid_bodies.get? j = some bj →
      (bi.inv_mass ≠ 0 ∨ bj.inv_mass ≠ 0) →
      ts.get_position bj.owner = some pj →
      bi.colliding bj (pos1, pj + bj.offset) = some m →
      0 < (bj.velocity - bi.velocity).dot m.normal →
      ∃ s', resolvePair s ts hs i j pos1 = some (s', ts, hs) ∧
        ∀ k, (s'.rigid_bodies.get? k).map RigidBody.velocity =
          (s.rigid_bodies.get? k).map RigidBody.velocity := by
  intro s ts hs i j pos1 bi bj pj m hbi hbj hmass hpj hcol hnv
  unfold resolvePair
  rw [hbi, hbj]
  dsimp only
  rw [if_pos hmass, hpj]
  dsimp only
  rw [hcol]
  dsimp only
  rw [if_pos hnv]
  refine ⟨_, rfl, ?_⟩
  intro k
  dsimp only
  by_cases h1 : bi.inv_mass = 0 ∧ m.normal = (⟨0, 1, 0⟩ : Vec3)
  · rw [if_pos h1]
    by_cases hk : k = j
    · subst hk
      rw [List.get?_set_eq_of_lt _ (get?_some_lt hbj), hbj]
      rfl
    · rw [List.get?_set_ne _ _ (fun hh => hk hh.symm)]
  · rw [if_neg h1]
    by_cases h2 : bj.inv_mass = 0 ∧ m.normal = (⟨0, -1, 0⟩ : Vec3)
    · rw [if_pos h2]
      by_cases hk : k = i
      · subst hk
        rw [List.get?_set_eq_of_lt _ (get?_some_lt hbi), hbi]
        rfl
      · rw [List.get?_set_ne _ _ (fun hh => hk hh.symm)]
    · rw [if_neg h2]

/-- The C4 pair with body B separating (velocity `(1,0,0)`). -/
def c4SepB : RigidBody :=
  ⟨⟨2⟩, Vec3.zero, ⟨1, 1, 1⟩, ⟨1, 0, 0⟩, Vec3.zero, 0, 1, false, false, 1, false⟩

def c4SepSys : RigidBodySystem :=
  ⟨0, 1 / 60, ⟨0, -982 / 100, 0⟩, [(⟨1⟩, 0), (⟨2⟩, 1)], [c4BodyA, c4SepB]⟩

/-- Witness for the amended C4: with a strictly separating relative
velocity the pair really is skipped — the transformation and health
systems come back untouched and every velocity is preserved. -/
theorem impulse_skip_spec_witness :
    ∃ s', resolvePair c4SepSys c4Ts c4Hs 0 1 ⟨0, 0, 0⟩ =
        some (s', c4Ts, c4Hs) ∧
      ∀ k, (s'.rigid_bodies.get? k).map RigidBody.velocity =
        (c4SepSys.rigid_bodies.get? k).map RigidBody.velocity := by
  exact impulse_skip_spec c4SepSys c4Ts c4Hs 0 1 ⟨0, 0, 0⟩ c4BodyA c4SepB
    ⟨3 / 2, 0, 0⟩ ⟨1 / 2, ⟨1, 0, 0⟩⟩ rfl rfl
    (Or.inl (by norm_num [c4BodyA]))
    rfl
    (by
      simp only [c4BodyA, c4SepB, RigidBody.colliding, Vec3.zero,
        Vec3.add_def, Vec3.sub_def]
      norm_num [abs_of_nonneg])
    (by
      simp only [c4BodyA, c4SepB, Vec3.zero, Vec3.sub_def, Vec3.dot]
      norm_num)

/-! ## C6: impulse application and the inelastic outcome -/

/-- Replacing a dense record with one of the same owner preserves the
store invariant. -/
theorem storeInv_set_sameowner {α : Type _} {owner : α → Entity}
    {map : EMap} {data : List α} {i : ℕ} {r r' : α}
    (inv : StoreInv owner map data) (hg : data.get? i = some r)
    (hown : owner r' = owner r) :
    StoreInv owner map (data.set i r') := by
  constructor
  · intro e j hj
    obtain ⟨r0, hr0, ho0⟩ := inv.1 e j hj
    by_cases hji : j = i
    · subst hji
      have : r0 = r := Option.some.inj (hr0.symm.trans hg)
      subst this
      refine ⟨r', List.get?_set_eq_of_lt _ (get?_some_lt hg), ?_⟩
      rw [hown]
      exact ho0
    · exact ⟨r0, by
        rw [List.get?_set_ne _ _ (fun hh => hji hh.symm)]
        exact hr0, ho0⟩
  · intro j r0 hr0
    by_cases hji : j = i
    · subst hji
      rw [List.get?_set_eq_of_lt _ (get?_some_lt hg)] at hr0
      have : r' = r0 := Option.some.inj hr0
      subst this
      rw [hown]
      exact inv.2 j r hg
    · rw [List.get?_set_ne _ _ (fun hh => hji hh.symm)] at hr0
      exact inv.2 j r0 hr0

/-- `harm` never panics on an invariant-satisfying store and preserves
the invariant. -/
theorem harm_total {hs : HealthSystem}
    (inv : StoreInv HealthData.owner hs.map hs.data) (e : Entity) (a : ℚ) :
    ∃ hs', hs.harm e a = some hs' ∧ hs'.map = hs.map ∧
      StoreInv HealthData.owner hs'.map hs'.data := by
  unfold HealthSystem.harm
  by_cases hnull : e ≠ Entity.null
  · rw [if_pos hnull]
    cases hm : mget hs.map e with
    | none => exact ⟨hs, rfl, rfl, inv⟩
    | some i =>
      obtain ⟨r, hr, _⟩ := inv.1 e i hm
      dsimp only
      rw [hr]
      exact ⟨_, rfl, rfl, storeInv_set_sameowner inv hr rfl⟩
  · rw [if_neg hnull]
    exact ⟨hs, rfl, rfl, inv⟩

/-- `kill_entity` never panics on an invariant-satisfying store and
preserves the invariant. -/
theorem kill_total {hs : HealthSystem}
    (inv : StoreInv HealthData.owner hs.map hs.data) (e : Entity) :
    ∃ hs', hs.kill_entity e = some hs' ∧ hs'.map = hs.map ∧
      StoreInv HealthData.owner hs'.map hs'.data := by
  unfold HealthSystem.kill_entity
  by_cases hnull : e ≠ Entity.null
  · rw [if_pos hnull]
    cases hm : mget hs.map e with
    | none => exact ⟨hs, rfl, rfl, inv⟩
    | some i =>
      obtain ⟨r, hr, _⟩ := inv.1 e i hm
      dsimp only
      rw [hr]
      exact ⟨_, rfl, rfl, storeInv_set_sameowner inv hr rfl⟩
  · rw [if_neg hnull]
    exact ⟨hs, rfl, rfl, inv⟩

/-- The per-body damage dispatch never panics on an
invariant-satisfying store and preserves the invariant. -/
theorem healthCollisionStep_total {hs : HealthSystem}
    (inv : StoreInv HealthData.owner hs.map hs.data) (v : Entity) (dmg : ℚ)
    (dies : Bool) :
    ∃ hs', healthCollisionStep hs v dmg dies = some hs' ∧
      StoreInv HealthData.owner hs'.map hs'.data := by
  unfold healthCollisionStep
  by_cases hhas : hs.entity_has_health v
  · rw [if_pos hhas]
    obtain ⟨hs1, hh, _, inv1⟩ := harm_total inv v dmg
    rw [hh]
    cases dies with
    | true =>
      obtain ⟨hs2, hk, _, inv2⟩ := kill_total inv1 v
      exact ⟨hs2, by dsimp only; rw [if_pos rfl]; exact hk, inv2⟩
    | false => exact ⟨hs1, by dsimp only; rw [if_neg (by simp)], inv1⟩
  · rw [if_neg hhas]
    exact ⟨hs, rfl, inv⟩

/-- `modifyPosition` succeeds whenever `get_position` does, keeps the
map, and keeps every other `get_position` call succeeding. -/
theorem modifyPosition_total {ts : TransformationSystem} {e : Entity}
    {p : Vec3} (f : Vec3 → Vec3) (h : ts.get_position e = some p) :
    ∃ ts1, ts.modifyPosition e f = some ts1 ∧ ts1.map = ts.map ∧
      ∀ e' p', ts.get_position e' = some p' →
        (ts1.get_position e').isSome = true := by
  unfold TransformationSystem.get_position at h
  cases hm : mget ts.map e with
  | none => rw [hm] at h; exact absurd h (by simp)
  | some i =>
    rw [hm] at h
    dsimp only at h
    cases hg : ts.data.get? i with
    | none => rw [hg] at h; exact absurd h (by simp)
    | some r =>
      refine ⟨⟨ts.map, ts.data.set i ({ r with position := f r.position })⟩,
        ?_, rfl, ?_⟩
      · unfold TransformationSystem.modifyPosition
        rw [hm]
        dsimp only
        rw [hg]
      intro e' p' hp'
      unfold TransformationSystem.get_position at hp' ⊢
      cases hm' : mget ts.map e' with
      | none => rw [hm'] at hp'; exact absurd hp' (by simp)
      | some j =>
        rw [hm'] at hp'
        dsimp only at hp' ⊢
        cases hg' : ts.data.get? j with
        | none => rw [hg'] at hp'; exact absurd hp' (by simp)
        | some r' =>
          by_cases hji : j = i
          · subst hji
            rw [List.get?_set_eq_of_lt _ (get?_some_lt hg')]
            rfl
          · rw [List.get?_set_ne _ _ (fun hh => hji hh.symm), hg']
            rfl

/-- The collision normal is always one of the six axis-aligned unit
vectors, hence has unit dot square. -/
theorem colliding_normal_unit {b1 b2 : RigidBody} {p1 p2 : Vec3}
    {m : CollisionManifold} (h : b1.colliding b2 (p1, p2) = some m) :
    m.normal.dot m.normal = 1 := by
  rw [colliding_eq] at h
  by_cases hc : (0 < b1.extents.x + b2.extents.x - |p2.x - p1.x| ∧
      0 < b1.extents.y + b2.extents.y - |p2.y - p1.y| ∧
      0 < b1.extents.z + b2.extents.z - |p2.z - p1.z|)
  · rw [if_pos hc] at h
    have hm := (Option.some.inj h).symm
    subst hm
    dsimp only
    split_ifs <;> norm_num [Vec3.dot]
  · rw [if_neg hc] at h
    exact absurd h (by simp)

/-- The source's impulse magnitude for a resolved pair:
`-(1 + max(elasticity_i, elasticity_j)) * (rv.normal) / (invMass_i + invMass_j)`. -/
def impulseMagnitude (bi bj : RigidBody) (n : Vec3) : ℚ :=
  -(1 + max bi.elasticity bj.elasticity) *
    ((bj.velocity - bi.velocity).dot n) / (bi.inv_mass + bj.inv_mass)

def postVelocityI (bi bj : RigidBody) (n : Vec3) : Vec3 :=
  bi.velocity - n * impulseMagnitude bi bj n * bi.inv_mass

def postVelocityJ (bi bj : RigidBody) (n : Vec3) : Vec3 :=
  bj.velocity + n * impulseMagnitude bi bj n * bj.inv_mass

/-- Body `i`'s foothold flag after the pre-impulse marking of the
collision loop (rigid_body.rs lines 450-458): set when body `j` is
static and the normal is `(0,-1,0)`, unless the first branch (body `i`
static with normal `(0,1,0)`) already fired. -/
def footholdI (bi bj : RigidBody) (n : Vec3) : Bool :=
  if bi.inv_mass = 0 ∧ n = (⟨0, 1, 0⟩ : Vec3) then bi.foothold
  else if bj.inv_mass = 0 ∧ n = (⟨0, -1, 0⟩ : Vec3) then true
  else bi.foothold

/-- Body `j`'s foothold flag after the pre-impulse marking: set when
body `i` is static and the normal is `(0,1,0)`. -/
def footholdJ (bi bj : RigidBody) (n : Vec3) : Bool :=
  if bi.inv_mass = 0 ∧ n = (⟨0, 1, 0⟩ : Vec3) then true else bj.foothold

/-- Writing index `j`, then `i ≠ j`, then `j` again: the first write to
`j` is overwritten. -/
lemma set_set_comm {α : Type _} (l : List α) {i j : ℕ} (h : i ≠ j)
    (a b c : α) : ((l.set j a).set i b).set j c = (l.set i b).set j c := by
  rw [List.set_comm a b l (Ne.symm h), List.set_set]

/-- C6.  Impulse application: for every resolved colliding pair — the
source resolves a pair when at least one body is dynamic, so
static-dynamic pairs are included — with non-separating relative
velocity, the restitution is `e = max(elasticity_i, elasticity_j)`,
the impulse magnitude is `-(1+e) * (rv.normal) / (invMass_i +
invMass_j)` (`impulseMagnitude`), body `i`'s velocity is decremented
and body `j`'s incremented by the impulse times its own inverse mass
(`postVelocityI`/`postVelocityJ`, a static body thus keeping its
velocity), the foothold flags carry the pre-impulse marking
(`footholdI`/`footholdJ`), and with zero elasticity on both bodies the
post-collision relative velocity along the normal is exactly 0
(perfectly inelastic; in exact arithmetic this covers the claim's
equal-mass head-on case). -/
theorem impulse_resolution_spec :
    ∀ (s : RigidBodySystem) (ts : TransformationSystem) (hs : HealthSystem)
      (i j : ℕ) (pos1 : Vec3) (bi bj : RigidBody) (pI pj : Vec3)
      (m : CollisionManifold),
      i ≠ j →
      s.rigid_bodies.get? i = some bi →
      s.rigid_bodies.get? j = some bj →
      0 ≤ bi.inv_mass → 0 ≤ bj.inv_mass →
      (bi.inv_mass ≠ 0 ∨ bj.inv_mass ≠ 0) →
      ts.get_position bi.owner = some pI →
      ts.get_position bj.owner = some pj →
      bi.colliding bj (pos1, pj + bj.offset) = some m →
      (bj.velocity - bi.velocity).dot m.normal ≤ 0 →
      StoreInv HealthData.owner hs.map hs.data →
      ∃ ts2 hs2,
        resolvePair s ts hs i j pos1 =
          some ({ s with
              rigid_bodies :=
                (s.rigid_bodies.set i
                    { bi with velocity := postVelocityI bi bj m.normal,
                              foothold := footholdI bi bj m.normal }).set j
                  { bj with velocity := postVelocityJ bi bj m.normal,
                            foothold := footholdJ bi bj m.normal } },
            ts2, hs2) ∧
        (bi.elasticity = 0 → bj.elasticity = 0 →
          (postVelocityJ bi bj m.normal - postVelocityI bi bj m.normal).dot
            m.normal = 0) := by
  intro s ts hs i j pos1 bi bj pI pj m hij hbi hbj hge1 hge2 hfil hpI hpj hcol
    hnv invH
  have hM : 0 < bi.inv_mass + bj.inv_mass := by
    rcases hfil with h | h
    · have h1 := lt_of_le_of_ne hge1 (Ne.symm h)
      linarith
    · have h1 := lt_of_le_of_ne hge2 (Ne.symm h)
      linarith
  have hMne : bi.inv_mass + bj.inv_mass ≠ 0 := ne_of_gt hM
  have hinel : bi.elasticity = 0 → bj.elasticity = 0 →
      (postVelocityJ bi bj m.normal - postVelocityI bi bj m.normal).dot
        m.normal = 0 := by
    intro he1 he2
    have hunit := colliding_normal_unit hcol
    have key : (postVelocityJ bi bj m.normal -
          postVelocityI bi bj m.normal).dot m.normal =
        (bj.velocity - bi.velocity).dot m.normal +
          m.normal.dot m.normal *
            (impulseMagnitude bi bj m.normal * (bi.inv_mass + bj.inv_mass)) := by
      simp only [postVelocityJ, postVelocityI, Vec3.sub_def, Vec3.add_def,
        Vec3.smul_def, Vec3.dot]
      ring
    rw [key, hunit, one_mul, impulseMagnitude, he1, he2, max_self]
    field_simp
  have hf3 : ¬((bj.velocity - bi.velocity).dot m.normal > 0) := not_lt.mpr hnv
  unfold resolvePair
  rw [hbi, hbj]
  dsimp only
  rw [if_pos hfil, hpj]
  dsimp only
  rw [hcol]
  dsimp only
  rw [if_neg hf3]
  by_cases hB : bi.inv_mass = 0 ∧ m.normal = (⟨0, 1, 0⟩ : Vec3)
  · rw [if_pos hB]
    unfold modifyBody
    rw [List.get?_set_ne _ _ (Ne.symm hij), hbi]
    dsimp only
    rw [List.get?_set_ne _ _ hij, List.get?_set_eq_of_lt _ (get?_some_lt hbj)]
    dsimp only
    obtain ⟨ts1, hts1, hmap1, hpres1⟩ := modifyPosition_total
      (fun p => p - m.normal * (1 / (bi.inv_mass + bj.inv_mass)) * bi.inv_mass *
        m.penetration) hpI
    rw [hts1]
    dsimp only
    obtain ⟨pj1, hpj1⟩ := Option.isSome_iff_exists.mp (hpres1 bj.owner pj hpj)
    obtain ⟨ts2, hts2, hmap2, hpres2⟩ := modifyPosition_total
      (fun p => p + m.normal * (1 / (bi.inv_mass + bj.inv_mass)) * bj.inv_mass *
        m.penetration) hpj1
    rw [hts2]
    dsimp only
    obtain ⟨hs1, hh1, inv1⟩ := healthCollisionStep_total invH bi.owner bj.damage
      bi.die_on_collision
    rw [hh1]
    dsimp only
    obtain ⟨hs2, hh2, _⟩ := healthCollisionStep_total inv1 bj.owner bi.damage
      bj.die_on_collision
    rw [hh2]
    dsimp only
    refine ⟨ts2, hs2, ?_, hinel⟩
    have hfI : footholdI bi bj m.normal = bi.foothold := by
      simp only [footholdI]
      rw [if_pos hB]
    have hfJ : footholdJ bi bj m.normal = true := by
      simp only [footholdJ]
      rw [if_pos hB]
    rw [hfI, hfJ, set_set_comm s.rigid_bodies hij]
    rfl
  · rw [if_neg hB]
    by_cases hC : bj.inv_mass = 0 ∧ m.normal = (⟨0, -1, 0⟩ : Vec3)
    · rw [if_pos hC]
      unfold modifyBody
      rw [List.get?_set_eq_of_lt _ (get?_some_lt hbi)]
      dsimp only
      rw [List.get?_set_ne _ _ hij, List.get?_set_ne _ _ hij, hbj]
      dsimp only
      obtain ⟨ts1, hts1, hmap1, hpres1⟩ := modifyPosition_total
        (fun p => p - m.normal * (1 / (bi.inv_mass + bj.inv_mass)) *
          bi.inv_mass * m.penetration) hpI
      rw [hts1]
      dsimp only
      obtain ⟨pj1, hpj1⟩ := Option.isSome_iff_exists.mp (hpres1 bj.owner pj hpj)
      obtain ⟨ts2, hts2, hmap2, hpres2⟩ := modifyPosition_total
        (fun p => p + m.normal * (1 / (bi.inv_mass + bj.inv_mass)) *
          bj.inv_mass * m.penetration) hpj1
      rw [hts2]
      dsimp only
      obtain ⟨hs1, hh1, inv1⟩ := healthCollisionStep_total invH bi.owner
        bj.damage bi.die_on_collision
      rw [hh1]
      dsimp only
      obtain ⟨hs2, hh2, _⟩ := healthCollisionStep_total inv1 bj.owner bi.damage
        bj.die_on_collision
      rw [hh2]
      dsimp only
      refine ⟨ts2, hs2, ?_, hinel⟩
      have hfI : footholdI bi bj m.normal = true := by
        simp only [footholdI]
        rw [if_neg hB, if_pos hC]
      have hfJ : footholdJ bi bj m.normal = bj.foothold := by
        simp only [footholdJ]
        rw [if_neg hB]
      rw [hfI, hfJ, List.set_set]
      rfl
    · rw [if_neg hC]
      unfold modifyBody
      rw [hbi]
      dsimp only
      rw [List.get?_set_ne _ _ hij, hbj]
      dsimp only
      obtain ⟨ts1, hts1, hmap1, hpres1⟩ := modifyPosition_total
        (fun p => p - m.normal * (1 / (bi.inv_mass + bj.inv_mass)) *
          bi.inv_mass * m.penetration) hpI
      rw [hts1]
      dsimp only
      obtain ⟨pj1, hpj1⟩ := Option.isSome_iff_exists.mp (hpres1 bj.owner pj hpj)
      obtain ⟨ts2, hts2, hmap2, hpres2⟩ := modifyPosition_total
        (fun p => p + m.normal * (1 / (bi.inv_mass + bj.inv_mass)) *
          bj.inv_mass * m.penetration) hpj1
      rw [hts2]
      dsimp only
      obtain ⟨hs1, hh1, inv1⟩ := healthCollisionStep_total invH bi.owner
        bj.damage bi.die_on_collision
      rw [hh1]
      dsimp only
      obtain ⟨hs2, hh2, _⟩ := healthCollisionStep_total inv1 bj.owner bi.damage
        bj.die_on_collision
      rw [hh2]
      dsimp only
      refine ⟨ts2, hs2, ?_, hinel⟩
      have hfI : footholdI bi bj m.normal = bi.foothold := by
        simp only [footholdI]
        rw [if_neg hB, if_neg hC]
      have hfJ : footholdJ bi bj m.normal = bj.foothold := by
        simp only [footholdJ]
        rw [if_neg hB]
      rw [hfI, hfJ]
      rfl

/-- Head-on pair for the C6 witness: equal unit masses, zero
elasticity, closing velocities `(1,0,0)` and `(-1,0,0)`. -/
def c6BodyA : RigidBody :=
  ⟨⟨1⟩, Vec3.zero, ⟨1, 1, 1⟩, ⟨1, 0, 0⟩, Vec3.zero, 0, 1, false, false, 0, false⟩

def c6BodyB : RigidBody :=
  ⟨⟨2⟩, Vec3.zero, ⟨1, 1, 1⟩, ⟨-1, 0, 0⟩, Vec3.zero, 0, 1, false, false, 0, false⟩

def c6Sys : RigidBodySystem :=
  ⟨0, 1 / 60, ⟨0, -982 / 100, 0⟩, [(⟨1⟩, 0), (⟨2⟩, 1)], [c6BodyA, c6BodyB]⟩

/-- Witness for C6: the concrete head-on equal-mass zero-elasticity
pair resolves to both bodies at rest (post-collision relative normal
velocity exactly 0). -/
theorem impulse_resolution_spec_witness :
    (∃ ts2 hs2, resolvePair c6Sys c4Ts c4Hs 0 1 ⟨0, 0, 0⟩ =
        some (⟨0, 1 / 60, ⟨0, -982 / 100, 0⟩, [(⟨1⟩, 0), (⟨2⟩, 1)],
          [⟨⟨1⟩, Vec3.zero, ⟨1, 1, 1⟩, ⟨0, 0, 0⟩, Vec3.zero, 0, 1, false,
            false, 0, false⟩,
           ⟨⟨2⟩, Vec3.zero, ⟨1, 1, 1⟩, ⟨0, 0, 0⟩, Vec3.zero, 0, 1, false,
            false, 0, false⟩]⟩, ts2, hs2)) ∧
    (postVelocityJ c6BodyA c6BodyB ⟨1, 0, 0⟩ -
      postVelocityI c6BodyA c6BodyB ⟨1, 0, 0⟩).dot ⟨1, 0, 0⟩ = 0 := by
  obtain ⟨ts2, hs2, heq, hinel⟩ := impulse_resolution_spec c6Sys c4Ts c4Hs 0 1
    ⟨0, 0, 0⟩ c6BodyA c6BodyB ⟨0, 0, 0⟩ ⟨3 / 2, 0, 0⟩ ⟨1 / 2, ⟨1, 0, 0⟩⟩
    (by norm_num) rfl rfl (by norm_num [c6BodyA]) (by norm_num [c6BodyB])
    (Or.inl (by norm_num [c6BodyA]))
    rfl rfl
    (by
      simp only [c6BodyA, c6BodyB, RigidBody.colliding, Vec3.zero,
        Vec3.add_def, Vec3.sub_def]
      norm_num [abs_of_nonneg])
    (by
      simp only [c6BodyA, c6BodyB, Vec3.zero, Vec3.sub_def, Vec3.dot]
      norm_num)
    (storeInv_singleton rfl)
  refine ⟨⟨ts2, hs2, ?_⟩, hinel rfl rfl⟩
  rw [heq]
  simp only [c6Sys, c6BodyA, c6BodyB, postVelocityI, postVelocityJ,
    impulseMagnitude, footholdI, footholdJ, Vec3.zero, Vec3.sub_def,
    Vec3.add_def, Vec3.smul_def, Vec3.dot, List.set]
  norm_num

/-! ## C8: the fixed-timestep accumulator -/

/-- The sub-step loop drains exactly `⌊t/step⌋` steps (when the body
count is positive), leaves the accumulator strictly below the step,
and runs `substepN` that many times. -/
theorem physLoop_spec (step : ℚ) (count : ℕ) (hstep : 0 < step)
    (hcount : 0 < count) :
    ∀ (n : ℕ) (t : ℚ), ⌊t / step⌋₊ = n →
      ∀ (s : RigidBodySystem) (ts : TransformationSystem) (hs : HealthSystem)
        (t' : ℚ) (s' : RigidBodySystem) (ts' : TransformationSystem)
        (hs' : HealthSystem),
        physLoop step count t s ts hs = some (t', s', ts', hs') →
        t' = t - (n : ℚ) * step ∧ t' < step ∧
        substepN n s ts hs = some (s', ts', hs') := by
  intro n
  induction n using Nat.strong_induction_on with
  | _ n ih =>
    intro t hn s ts hs t' s' ts' hs' hrun
    rw [physLoop] at hrun
    by_cases hc : step ≤ t ∧ 0 < step ∧ 0 < count
    · rw [dif_pos hc] at hrun
      cases hsub : substep s ts hs with
      | none => rw [hsub] at hrun; exact absurd hrun (by simp)
      | some p =>
        obtain ⟨s1, ts1, hs1⟩ := p
        rw [hsub] at hrun
        have h1 : 1 ≤ ⌊t / step⌋₊ :=
          Nat.le_floor (by exact_mod_cast (one_le_div hstep).mpr hc.1)
        have hfl : ⌊(t - step) / step⌋₊ = n - 1 := by
          rw [show (t - step) / step = t / step - 1 by
            rw [sub_div, div_self (ne_of_gt hstep)], Nat.floor_sub_one, hn]
        have hlt : n - 1 < n := by omega
        obtain ⟨ha, hb, hcs⟩ :=
          ih (n - 1) hlt (t - step) hfl s1 ts1 hs1 t' s' ts' hs' hrun
        refine ⟨?_, hb, ?_⟩
        · rw [ha]
          have hcast : ((n - 1 : ℕ) : ℚ) = (n : ℚ) - 1 := by
            have h2 : 1 ≤ n := by omega
            push_cast [h2]
            ring
          rw [hcast]
          ring
        · have hne : n = (n - 1) + 1 := by omega
          rw [hne]
          show (match substep s ts hs with
            | some (s1, ts1, hs1) => substepN (n - 1) s1 ts1 hs1
            | none => none) = some (s', ts', hs')
          rw [hsub]
          exact hcs
    · rw [dif_neg hc] at hrun
      have hts : t < step := by
        by_contra hh
        exact hc ⟨not_lt.mp hh, hstep, hcount⟩
      have hn0 : n = 0 := by
        rw [← hn]
        apply Nat.floor_eq_zero.mpr
        rw [div_lt_one hstep]
        exact hts
      subst hn0
      have h4 := Option.some.inj hrun
      injection h4 with hx h4
      injection h4 with hy h4
      injection h4 with hz hw
      subst hx
      subst hy
      subst hz
      subst hw
      exact ⟨by push_cast; ring, hts, rfl⟩

/-- Counterexample to C8 as frozen: with zero rigid bodies and
`dt = 1`, a single `update` call executes zero sub-steps (the loop
also requires `count > 0`), so the accumulator ends at `1`, which is
not strictly below the fixed step `1/60` even though
`⌊accumulated/step⌋ = 60`. -/
theorem fixed_timestep_claim_counterexample :
    RigidBodySystem.update RigidBodySystem.new 1 TransformationSystem.new
        HealthSystem.new =
      some (⟨1, 1 / 60, ⟨0, -982 / 100, 0⟩, [], []⟩,
        TransformationSystem.new, HealthSystem.new) ∧
    ¬((1 : ℚ) < 1 / 60) ∧
    ⌊(RigidBodySystem.new.timer0 + 1) / RigidBodySystem.new.timer1⌋₊ = 60 := by
  refine ⟨?_, by norm_num, ?_⟩
  · unfold RigidBodySystem.update
    rw [physLoop]
    norm_num [RigidBodySystem.new]
  · norm_num [RigidBodySystem.new]

/-- C8 (amended).  Every `RigidBodySystem::update(dt, ..)` call adds
`dt` to the accumulator `timer.0`; provided at least one rigid body is
registered, the call then executes exactly
`⌊(timer.0 + dt) / timer.1⌋` physics sub-steps (each integrating all
bodies and resolving all pairs — `substepN`), leaving the accumulator
strictly below the fixed step.  With zero bodies the `count > 0`
conjunct of the loop guard disables sub-stepping entirely and the
accumulated time is kept (possibly at or above the step). -/
theorem fixed_timestep_accumulator_spec :
    ∀ (s : RigidBodySystem) (ts : TransformationSystem) (hs : HealthSystem)
      (dt : ℚ) (s' : RigidBodySystem) (ts' : TransformationSystem)
      (hs' : HealthSystem),
      0 < s.timer1 →
      RigidBodySystem.update s dt ts hs = some (s', ts', hs') →
      ((0 < s.rigid_bodies.length →
        s'.timer0 =
          (s.timer0 + dt) -
            (⌊(s.timer0 + dt) / s.timer1⌋₊ : ℚ) * s.timer1 ∧
        s'.timer0 < s.timer1 ∧
        ∃ s'', substepN ⌊(s.timer0 + dt) / s.timer1⌋₊ s ts hs =
            some (s'', ts', hs') ∧
          s' = { s'' with timer0 := s'.timer0 }) ∧
      (s.rigid_bodies.length = 0 →
        s' = { s with timer0 := s.timer0 + dt } ∧ ts' = ts ∧ hs' = hs)) := by
  intro s ts hs dt s' ts' hs' hstep hrun
  unfold RigidBodySystem.update at hrun
  cases hloop : physLoop s.timer1 s.rigid_bodies.length (s.timer0 + dt)
      s ts hs with
  | none => rw [hloop] at hrun; exact absurd hrun (by simp)
  | some q =>
    obtain ⟨t1, s1, ts1, hs1⟩ := q
    rw [hloop] at hrun
    dsimp only at hrun
    have h4 := Option.some.inj hrun
    injection h4 with hx h4
    injection h4 with hy hz
    constructor
    · intro hcount
      obtain ⟨ha, hb, hcs⟩ := physLoop_spec s.timer1 s.rigid_bodies.length
        hstep hcount ⌊(s.timer0 + dt) / s.timer1⌋₊ (s.timer0 + dt) rfl
        s ts hs t1 s1 ts1 hs1 hloop
      refine ⟨by rw [← hx]; exact ha, by rw [← hx]; exact hb, s1, ?_, ?_⟩
      · rw [hcs, hy, hz]
      · rw [← hx]
    · intro hcount
      rw [physLoop] at hloop
      have hneg : ¬(s.timer1 ≤ s.timer0 + dt ∧ 0 < s.timer1 ∧
          0 < s.rigid_bodies.length) := by
        intro hh
        rw [hcount] at hh
        exact absurd hh.2.2 (lt_irrefl 0)
      rw [dif_neg hneg] at hloop
      have h5 := Option.some.inj hloop
      injection h5 with ha h5
      injection h5 with hb h5
      injection h5 with hc hd
      subst ha
      subst hb
      subst hc
      subst hd
      exact ⟨hx.symm, hy.symm, hz.symm⟩

/-- A body whose owner is entity `1`, for the accumulator witness. -/
def c8Body : RigidBody :=
  { owner := ⟨1⟩, offset := ⟨0, 0, 0⟩, extents := ⟨1, 1, 1⟩,
    velocity := ⟨0, 0, 0⟩, locomotion := ⟨0, 0, 0⟩, elasticity := 0,
    inv_mass := 1, gravity_immune := false, foothold := false,
    damage := 0, die_on_collision := false }

/-- A transform store holding entity `1` at the origin. -/
def c8Ts : TransformationSystem :=
  ⟨[(⟨1⟩, 0)], [⟨⟨1⟩, ⟨0, 0, 0⟩, ⟨1, 1, 1⟩, ⟨0, 0, 0⟩, Quat.identity⟩]⟩

/-- A fresh rigid-body system carrying the single body `c8Body`. -/
def c8Sys : RigidBodySystem :=
  ⟨0, 1 / 60, ⟨0, -982 / 100, 0⟩, [(⟨1⟩, 0)], [c8Body]⟩

theorem fixed_timestep_accumulator_spec_witness :
    (0 : ℚ) < c8Sys.timer1 ∧
    RigidBodySystem.update c8Sys (1 / 120) c8Ts HealthSystem.new =
      some ({ c8Sys with timer0 := 1 / 120 }, c8Ts, HealthSystem.new) ∧
    ((0 < c8Sys.rigid_bodies.length →
        ({ c8Sys with timer0 := (1 : ℚ) / 120 }).timer0 =
          (c8Sys.timer0 + 1 / 120) -
            (⌊(c8Sys.timer0 + 1 / 120) / c8Sys.timer1⌋₊ : ℚ) * c8Sys.timer1 ∧
        ({ c8Sys with timer0 := (1 : ℚ) / 120 }).timer0 < c8Sys.timer1 ∧
        ∃ s'', substepN ⌊(c8Sys.timer0 + 1 / 120) / c8Sys.timer1⌋₊ c8Sys c8Ts
            HealthSystem.new = some (s'', c8Ts, HealthSystem.new) ∧
          { c8Sys with timer0 := (1 : ℚ) / 120 } =
            { s'' with timer0 :=
                ({ c8Sys with timer0 := (1 : ℚ) / 120 }).timer0 }) ∧
     (c8Sys.rigid_bodies.length = 0 →
        { c8Sys with timer0 := (1 : ℚ) / 120 } =
          { c8Sys with timer0 := c8Sys.timer0 + 1 / 120 } ∧
        c8Ts = c8Ts ∧ HealthSystem.new = HealthSystem.new)) := by
  have htimer : (0 : ℚ) < c8Sys.timer1 := by norm_num [c8Sys]
  have hupd : RigidBodySystem.update c8Sys (1 / 120) c8Ts HealthSystem.new =
      some ({ c8Sys with timer0 := 1 / 120 }, c8Ts, HealthSystem.new) := by
    unfold RigidBodySystem.update
    rw [physLoop]
    norm_num [c8Sys]
  exact ⟨htimer, hupd,
    fixed_timestep_accumulator_spec c8Sys c8Ts HealthSystem.new (1 / 120)
      { c8Sys with timer0 := 1 / 120 } c8Ts HealthSystem.new htimer hupd⟩

/-! ## C9: ray casting -/

/-- Spec-side pure x-axis slab test, `tmax > max(tmin, 0)` computed
from the x slab bounds alone (stated from the spec's words, for
comparison with the source's `ray_vs_aabb_intersecting`). -/
def xSlabTest (px ex ox ix : ℚ) : Bool :=
  let t1 := (px - ex - ox) * ix
  let t2 := (px + ex - ox) * ix
  decide (max t1 t2 > max (min t1 t2) 0)

/-- A body counts as a hit for the `ray_cast` scan: its owner is not
the excluded `user` and its AABB, placed at the owner's transform
position, passes the slab test. -/
def rayHitB (ts : TransformationSystem) (user : Entity)
    (origin direction inv : Vec3) (c : RigidBody) : Bool :=
  match ts.get_position c.owner with
  | some pos =>
    decide (c.owner ≠ user) &&
      RigidBodySystem.ray_vs_aabb_intersecting (pos, c.extents)
        origin direction inv
  | none => false

/-- A hit body's owner is never the excluded entity. -/
lemma rayHitB_ne_user {ts : TransformationSystem} {user : Entity}
    {origin direction inv : Vec3} {c : RigidBody}
    (h : rayHitB ts user origin direction inv c = true) : c.owner ≠ user := by
  cases hp : ts.get_position c.owner with
  | none =>
    simp only [rayHitB, hp] at h
    exact Bool.noConfusion h
  | some pos =>
    simp only [rayHitB, hp, Bool.and_eq_true, decide_eq_true_eq] at h
    exact h.1

/-- The source's slab test reads only the x components: the y/z
tightenings are bound to dead locals. -/
lemma ray_vs_aabb_x_only (aabb : Vec3 × Vec3) (origin direction inv : Vec3) :
    RigidBodySystem.ray_vs_aabb_intersecting aabb origin direction inv =
      xSlabTest aabb.1.x aabb.2.x origin.x inv.x := rfl

/-- Under total position lookups the `ray_cast` scan never panics. -/
lemma rayCastLoop_total (ts : TransformationSystem) (user : Entity)
    (origin direction inv : Vec3) :
    ∀ (bodies : List RigidBody),
      (∀ c ∈ bodies, (ts.get_position c.owner).isSome = true) →
      ∀ acc, ∃ res,
        rayCastLoop ts user origin direction inv bodies acc = some res := by
  intro bodies
  induction bodies with
  | nil => exact fun _ acc => ⟨acc, rfl⟩
  | cons c rest ih =>
    intro h acc
    obtain ⟨pos, hp⟩ := Option.isSome_iff_exists.mp
      (h c (List.mem_cons_self c rest))
    have hrest := fun c' hc' => h c' (List.mem_cons_of_mem c hc')
    by_cases hhit : c.owner ≠ user ∧
        RigidBodySystem.ray_vs_aabb_intersecting (pos, c.extents) origin
          direction inv = true
    · cases acc with
      | none =>
        obtain ⟨res, hres⟩ := ih hrest
          (some ((pos - origin).length_squared, c.owner))
        refine ⟨res, ?_⟩
        simp only [rayCastLoop, hp]
        rw [if_pos hhit]
        exact hres
      | some r =>
        by_cases hlt : (pos - origin).length_squared < r.1
        · obtain ⟨res, hres⟩ := ih hrest
            (some ((pos - origin).length_squared, c.owner))
          refine ⟨res, ?_⟩
          simp only [rayCastLoop, hp]
          rw [if_pos hhit, if_pos hlt]
          exact hres
        · obtain ⟨res, hres⟩ := ih hrest (some r)
          refine ⟨res, ?_⟩
          simp only [rayCastLoop, hp]
          rw [if_pos hhit, if_neg hlt]
          exact hres
    · obtain ⟨res, hres⟩ := ih hrest acc
      refine ⟨res, ?_⟩
      simp only [rayCastLoop, hp]
      rw [if_neg hhit]
      exact hres

/-- Full characterization of the `ray_cast` scan loop: the result is
`none` exactly when the accumulator was `none` and no body is a hit;
a `some (d, e)` result is either the surviving accumulator (no hit is
strictly closer) or the first hit in scan order achieving the minimum
squared distance, strictly below the incoming accumulator's. -/
lemma rayCastLoop_char (ts : TransformationSystem) (user : Entity)
    (origin direction inv : Vec3) :
    ∀ (bodies : List RigidBody),
      (∀ c ∈ bodies, (ts.get_position c.owner).isSome = true) →
      ∀ (acc res : Option (ℚ × Entity)),
        rayCastLoop ts user origin direction inv bodies acc = some res →
        ((res = none ↔ (acc = none ∧ ∀ c ∈ bodies,
            rayHitB ts user origin direction inv c = false)) ∧
         ∀ d e, res = some (d, e) →
           ((acc = some (d, e) ∧ ∀ (j : ℕ) (c' : RigidBody),
               bodies.get? j = some c' →
               rayHitB ts user origin direction inv c' = true →
               ∀ pos', ts.get_position c'.owner = some pos' →
                 d ≤ (pos' - origin).length_squared) ∨
            (∃ (i : ℕ) (c : RigidBody), bodies.get? i = some c ∧
               c.owner = e ∧
               rayHitB ts user origin direction inv c = true ∧
               (∃ pos, ts.get_position c.owner = some pos ∧
                 d = (pos - origin).length_squared) ∧
               (∀ r : ℚ × Entity, acc = some r → d < r.1) ∧
               (∀ (j : ℕ) (c' : RigidBody), bodies.get? j = some c' →
                 rayHitB ts user origin direction inv c' = true →
                 ∀ pos', ts.get_position c'.owner = some pos' →
                   d ≤ (pos' - origin).length_squared ∧
                   (j < i → d < (pos' - origin).length_squared))))) := by
  intro bodies
  induction bodies with
  | nil =>
    intro _ acc res hrun
    simp only [rayCastLoop] at hrun
    have hacc := Option.some.inj hrun
    subst hacc
    constructor
    · constructor
      · intro h1
        exact ⟨h1, fun c hc => absurd hc (List.not_mem_nil c)⟩
      · intro h1
        exact h1.1
    · intro d e hde
      left
      refine ⟨hde, ?_⟩
      intro j c' hj
      rw [List.get?_nil] at hj
      exact Option.noConfusion hj
  | cons c rest ih =>
    intro h acc res hrun
    obtain ⟨pos, hp⟩ := Option.isSome_iff_exists.mp
      (h c (List.mem_cons_self c rest))
    have hrest := fun c' hc' => h c' (List.mem_cons_of_mem c hc')
    have hBc : rayHitB ts user origin direction inv c = true ↔
        (c.owner ≠ user ∧
          RigidBodySystem.ray_vs_aabb_intersecting (pos, c.extents) origin
            direction inv = true) := by
      simp only [rayHitB, hp, Bool.and_eq_true, decide_eq_true_eq]
    simp only [rayCastLoop, hp] at hrun
    by_cases hhit : c.owner ≠ user ∧
        RigidBodySystem.ray_vs_aabb_intersecting (pos, c.extents) origin
          direction inv = true
    · rw [if_pos hhit] at hrun
      have hBct : rayHitB ts user origin direction inv c = true := hBc.mpr hhit
      cases acc with
      | none =>
        dsimp only at hrun
        obtain ⟨ihn, ihs⟩ := ih hrest
          (some ((pos - origin).length_squared, c.owner)) res hrun
        constructor
        · constructor
          · intro hres
            exact Option.noConfusion (ihn.mp hres).1
          · rintro ⟨-, hall⟩
            have hfc := hall c (List.mem_cons_self c rest)
            rw [hBct] at hfc
            exact Bool.noConfusion hfc
        · intro d e hde
          rcases ihs d e hde with ⟨hacc, hmin⟩ |
            ⟨i, c1, hi, howner, hh1, hdist, haccs, hmin⟩
          · have hpair := Option.some.inj hacc
            have hd : (pos - origin).length_squared = d :=
              congrArg Prod.fst hpair
            have he : c.owner = e := congrArg Prod.snd hpair
            right
            refine ⟨0, c, rfl, he, hBct, ⟨pos, hp, hd.symm⟩, ?_, ?_⟩
            · intro r hr
              exact Option.noConfusion hr
            · intro j c' hj hhit' pos' hp'
              cases j with
              | zero =>
                have hc' := Option.some.inj hj
                subst hc'
                rw [hp] at hp'
                have hpp := Option.some.inj hp'
                subst hpp
                exact ⟨le_of_eq hd.symm, fun h0 => absurd h0 (lt_irrefl 0)⟩
              | succ k =>
                have hj' : rest.get? k = some c' := hj
                exact ⟨hmin k c' hj' hhit' pos' hp',
                  fun hk => absurd hk (Nat.not_lt_zero _)⟩
          · right
            refine ⟨i + 1, c1, hi, howner, hh1, hdist, ?_, ?_⟩
            · intro r hr
              exact Option.noConfusion hr
            · intro j c' hj hhit' pos' hp'
              cases j with
              | zero =>
                have hc' := Option.some.inj hj
                subst hc'
                rw [hp] at hp'
                have hpp := Option.some.inj hp'
                have hstrict := haccs ((pos - origin).length_squared, c.owner) rfl
                rw [hpp] at hstrict
                exact ⟨le_of_lt hstrict, fun _ => hstrict⟩
              | succ k =>
                have hj' : rest.get? k = some c' := hj
                have hres := hmin k c' hj' hhit' pos' hp'
                exact ⟨hres.1, fun hk => hres.2 (Nat.lt_of_succ_lt_succ hk)⟩
      | some r0 =>
        dsimp only at hrun
        by_cases hlt : (pos - origin).length_squared < r0.1
        · rw [if_pos hlt] at hrun
          obtain ⟨ihn, ihs⟩ := ih hrest
            (some ((pos - origin).length_squared, c.owner)) res hrun
          constructor
          · constructor
            · intro hres
              exact Option.noConfusion (ihn.mp hres).1
            · rintro ⟨ha, -⟩
              exact Option.noConfusion ha
          · intro d e hde
            rcases ihs d e hde with ⟨hacc, hmin⟩ |
              ⟨i, c1, hi, howner, hh1, hdist, haccs, hmin⟩
            · have hpair := Option.some.inj hacc
              have hd : (pos - origin).length_squared = d :=
                congrArg Prod.fst hpair
              have he : c.owner = e := congrArg Prod.snd hpair
              right
              refine ⟨0, c, rfl, he, hBct, ⟨pos, hp, hd.symm⟩, ?_, ?_⟩
              · intro r hr
                rw [← Option.some.inj hr, ← hd]
                exact hlt
              · intro j c' hj hhit' pos' hp'
                cases j with
                | zero =>
                  have hc' := Option.some.inj hj
                  subst hc'
                  rw [hp] at hp'
                  have hpp := Option.some.inj hp'
                  subst hpp
                  exact ⟨le_of_eq hd.symm, fun h0 => absurd h0 (lt_irrefl 0)⟩
                | succ k =>
                  have hj' : rest.get? k = some c' := hj
                  exact ⟨hmin k c' hj' hhit' pos' hp',
                    fun hk => absurd hk (Nat.not_lt_zero _)⟩
            · right
              refine ⟨i + 1, c1, hi, howner, hh1, hdist, ?_, ?_⟩
              · intro r hr
                rw [← Option.some.inj hr]
                have hstrict := haccs ((pos - origin).length_squared, c.owner) rfl
                exact lt_trans hstrict hlt
              · intro j c' hj hhit' pos' hp'
                cases j with
                | zero =>
                  have hc' := Option.some.inj hj
                  subst hc'
                  rw [hp] at hp'
                  have hpp := Option.some.inj hp'
                  have hstrict := haccs ((pos - origin).length_squared, c.owner) rfl
                  rw [hpp] at hstrict
                  exact ⟨le_of_lt hstrict, fun _ => hstrict⟩
                | succ k =>
                  have hj' : rest.get? k = some c' := hj
                  have hres := hmin k c' hj' hhit' pos' hp'
                  exact ⟨hres.1, fun hk => hres.2 (Nat.lt_of_succ_lt_succ hk)⟩
        · rw [if_neg hlt] at hrun
          obtain ⟨ihn, ihs⟩ := ih hrest (some r0) res hrun
          constructor
          · constructor
            · intro hres
              exact Option.noConfusion (ihn.mp hres).1
            · rintro ⟨ha, -⟩
              exact Option.noConfusion ha
          · intro d e hde
            rcases ihs d e hde with ⟨hacc, hmin⟩ |
              ⟨i, c1, hi, howner, hh1, hdist, haccs, hmin⟩
            · left
              refine ⟨hacc, ?_⟩
              intro j c' hj hhit' pos' hp'
              cases j with
              | zero =>
                have hc' := Option.some.inj hj
                subst hc'
                rw [hp] at hp'
                have hpp := Option.some.inj hp'
                subst hpp
                have hd0 : r0.1 = d := congrArg Prod.fst (Option.some.inj hacc)
                rw [← hd0]
                exact not_lt.mp hlt
              | succ k =>
                have hj' : rest.get? k = some c' := hj
                exact hmin k c' hj' hhit' pos' hp'
            · right
              refine ⟨i + 1, c1, hi, howner, hh1, hdist, haccs, ?_⟩
              intro j c' hj hhit' pos' hp'
              cases j with
              | zero =>
                have hc' := Option.some.inj hj
                subst hc'
                rw [hp] at hp'
                have hpp := Option.some.inj hp'
                have hstrict := haccs r0 rfl
                have hle : d < (pos - origin).length_squared :=
                  lt_of_lt_of_le hstrict (not_lt.mp hlt)
                rw [hpp] at hle
                exact ⟨le_of_lt hle, fun _ => hle⟩
              | succ k =>
                have hj' : rest.get? k = some c' := hj
                have hres := hmin k c' hj' hhit' pos' hp'
                exact ⟨hres.1, fun hk => hres.2 (Nat.lt_of_succ_lt_succ hk)⟩
    · rw [if_neg hhit] at hrun
      obtain ⟨ihn, ihs⟩ := ih hrest acc res hrun
      have hBcf : rayHitB ts user origin direction inv c = false := by
        rw [← Bool.not_eq_true]
        exact fun hh => hhit (hBc.mp hh)
      constructor
      · constructor
        · intro hres
          obtain ⟨ha, hall⟩ := ihn.mp hres
          refine ⟨ha, ?_⟩
          intro c' hc'
          rcases List.mem_cons.mp hc' with h1 | h2
          · rw [h1]
            exact hBcf
          · exact hall c' h2
        · rintro ⟨ha, hall⟩
          exact ihn.mpr ⟨ha, fun c' hc' => hall c' (List.mem_cons_of_mem c hc')⟩
      · intro d e hde
        rcases ihs d e hde with ⟨hacc, hmin⟩ |
          ⟨i, c1, hi, howner, hh1, hdist, haccs, hmin⟩
        · left
          refine ⟨hacc, ?_⟩
          intro j c' hj hhit' pos' hp'
          cases j with
          | zero =>
            have hc' := Option.some.inj hj
            subst hc'
            rw [hBcf] at hhit'
            exact Bool.noConfusion hhit'
          | succ k =>
            have hj' : rest.get? k = some c' := hj
            exact hmin k c' hj' hhit' pos' hp'
        · right
          refine ⟨i + 1, c1, hi, howner, hh1, hdist, haccs, ?_⟩
          intro j c' hj hhit' pos' hp'
          cases j with
          | zero =>
            have hc' := Option.some.inj hj
            subst hc'
            rw [hBcf] at hhit'
            exact Bool.noConfusion hhit'
          | succ k =>
            have hj' : rest.get? k = some c' := hj
            have hres := hmin k c' hj' hhit' pos' hp'
            exact ⟨hres.1, fun hk => hres.2 (Nat.lt_of_succ_lt_succ hk)⟩

/-- C9.  Ray casting: under total transform lookups `ray_cast` never
panics; it returns `none` iff no non-excluded body passes the slab
test; a `some (d, e)` result names a body in scan order whose owner is
not the excluded `user`, which passes the slab test, whose transform
position has squared distance `d` to the ray origin, such that no hit
anywhere is strictly closer and every earlier hit is strictly farther
(first-seen wins on exact ties); and the slab test equals the pure
x-axis formula `tmax > max(tmin, 0)` — the y/z tightenings are dead
locals, a latent defect faithful to the source. -/
theorem ray_cast_spec (s : RigidBodySystem) (origin direction : Vec3)
    (ts : TransformationSystem) (user : Entity)
    (h : ∀ c ∈ s.rigid_bodies, (ts.get_position c.owner).isSome = true) :
    (∀ aabb : Vec3 × Vec3, ∀ o dir iv : Vec3,
      RigidBodySystem.ray_vs_aabb_intersecting aabb o dir iv =
        xSlabTest aabb.1.x aabb.2.x o.x iv.x) ∧
    ∃ res, s.ray_cast (origin, direction) ts user = some res ∧
      (res = none ↔ ∀ c ∈ s.rigid_bodies,
        rayHitB ts user origin direction
          ⟨1 / direction.x, 1 / direction.y, 1 / direction.z⟩ c = false) ∧
      (∀ d e, res = some (d, e) →
        e ≠ user ∧
        ∃ (i : ℕ) (c : RigidBody), s.rigid_bodies.get? i = some c ∧
          c.owner = e ∧
          rayHitB ts user origin direction
            ⟨1 / direction.x, 1 / direction.y, 1 / direction.z⟩ c = true ∧
          (∃ pos, ts.get_position e = some pos ∧
            d = (pos - origin).length_squared) ∧
          (∀ (j : ℕ) (c' : RigidBody), s.rigid_bodies.get? j = some c' →
            rayHitB ts user origin direction
              ⟨1 / direction.x, 1 / direction.y, 1 / direction.z⟩ c' = true →
            ∀ pos', ts.get_position c'.owner = some pos' →
              d ≤ (pos' - origin).length_squared ∧
              (j < i → d < (pos' - origin).length_squared))) := by
  refine ⟨fun aabb o dir iv => ray_vs_aabb_x_only aabb o dir iv, ?_⟩
  obtain ⟨res, hres⟩ := rayCastLoop_total ts user origin direction
    ⟨1 / direction.x, 1 / direction.y, 1 / direction.z⟩ s.rigid_bodies h none
  have hrc : s.ray_cast (origin, direction) ts user = some res := hres
  obtain ⟨ihn, ihs⟩ := rayCastLoop_char ts user origin direction
    ⟨1 / direction.x, 1 / direction.y, 1 / direction.z⟩ s.rigid_bodies h
    none res hres
  refine ⟨res, hrc, ?_, ?_⟩
  · rw [ihn]
    exact ⟨fun x => x.2, fun hall => ⟨rfl, hall⟩⟩
  · intro d e hde
    rcases ihs d e hde with ⟨hacc, -⟩ |
      ⟨i, c, hi, howner, hh1, hdist, -, hmin⟩
    · exact Option.noConfusion hacc
    · refine ⟨?_, i, c, hi, howner, hh1, ?_, hmin⟩
      · rw [← howner]
        exact rayHitB_ne_user hh1
      · rw [← howner]
        exact hdist

/-- One body owned by entity `1` whose AABB straddles the positive x
axis. -/
def c9Body : RigidBody :=
  { owner := ⟨1⟩, offset := ⟨0, 0, 0⟩, extents := ⟨1, 1, 1⟩,
    velocity := ⟨0, 0, 0⟩, locomotion := ⟨0, 0, 0⟩, elasticity := 0,
    inv_mass := 1, gravity_immune := false, foothold := false,
    damage := 0, die_on_collision := false }

/-- A transform store holding entity `1` at `(5, 0, 0)`. -/
def c9Ts : TransformationSystem :=
  ⟨[(⟨1⟩, 0)], [⟨⟨1⟩, ⟨5, 0, 0⟩, ⟨1, 1, 1⟩, ⟨0, 0, 0⟩, Quat.identity⟩]⟩

/-- A rigid-body system containing only `c9Body`. -/
def c9Sys : RigidBodySystem :=
  ⟨0, 1 / 60, ⟨0, -982 / 100, 0⟩, [(⟨1⟩, 0)], [c9Body]⟩

theorem ray_cast_spec_witness :
    (∀ aabb : Vec3 × Vec3, ∀ o dir iv : Vec3,
      RigidBodySystem.ray_vs_aabb_intersecting aabb o dir iv =
        xSlabTest aabb.1.x aabb.2.x o.x iv.x) ∧
    ∃ res, c9Sys.ray_cast (⟨0, 0, 0⟩, ⟨1, 0, 0⟩) c9Ts ⟨3⟩ = some res ∧
      (res = none ↔ ∀ c ∈ c9Sys.rigid_bodies,
        rayHitB c9Ts ⟨3⟩ ⟨0, 0, 0⟩ ⟨1, 0, 0⟩
          ⟨1 / (1 : ℚ), 1 / (0 : ℚ), 1 / (0 : ℚ)⟩ c = false) ∧
      (∀ d e, res = some (d, e) →
        e ≠ (⟨3⟩ : Entity) ∧
        ∃ (i : ℕ) (c : RigidBody), c9Sys.rigid_bodies.get? i = some c ∧
          c.owner = e ∧
          rayHitB c9Ts ⟨3⟩ ⟨0, 0, 0⟩ ⟨1, 0, 0⟩
            ⟨1 / (1 : ℚ), 1 / (0 : ℚ), 1 / (0 : ℚ)⟩ c = true ∧
          (∃ pos, c9Ts.get_position e = some pos ∧
            d = (pos - (⟨0, 0, 0⟩ : Vec3)).length_squared) ∧
          (∀ (j : ℕ) (c' : RigidBody), c9Sys.rigid_bodies.get? j = some c' →
            rayHitB c9Ts ⟨3⟩ ⟨0, 0, 0⟩ ⟨1, 0, 0⟩
              ⟨1 / (1 : ℚ), 1 / (0 : ℚ), 1 / (0 : ℚ)⟩ c' = true →
            ∀ pos', c9Ts.get_position c'.owner = some pos' →
              d ≤ (pos' - (⟨0, 0, 0⟩ : Vec3)).length_squared ∧
              (j < i → d < (pos' - (⟨0, 0, 0⟩ : Vec3)).length_squared))) :=
  ray_cast_spec c9Sys ⟨0, 0, 0⟩ ⟨1, 0, 0⟩ c9Ts ⟨3⟩ (by decide)

end BlackGrimoire
